import Mathlib

/-
  Verification development for the OtterBot transcript downloader
  (otter_downloader.py, otter_parallel.py, config.py).

  Modelling conventions:
  - Text values are usually modelled as lists of characters (List Char);
    Python len corresponds to List.length.  Identifiers (meeting ids,
    method names, file paths) are modelled as String where only equality
    and membership matter.
  - Python dicts are modelled as association lists in insertion order
    (a new key is appended at the end, an existing key is updated in
    place), which matches the insertion-ordered semantics of dict.
  - Timestamps (datetime.now().isoformat()) are abstract values passed
    in as parameters; the bookkeeping fields last_run and
    session_created, which every save() rewrites, are not part of the
    modelled state because no claim mentions them.
  - save() persists the whole state to the state file; persistence has
    no effect on the in-memory state, so the modelled operations are the
    in-memory read-modify-write part of each method.  The lock
    behaviour of the parallel variant is modelled separately and
    explicitly (see LockOp below).
-/

namespace OtterDownloader

/-- Status values stored in the "status" field of a ledger entry:
the code uses the strings "pending", "success" and "failed". -/
inductive Status where
  | pending
  | success
  | failed
deriving DecidableEq

/-- One entry of the meetings map created by DownloadState.register_meeting. -/
structure Meeting where
  id : String
  title : String
  url : String
  status : Status
  discovered_at : Nat
  download_path : Option String
  file_size : Option Nat
  method_used : Option String
deriving DecidableEq

/-- One element of a download_attempts list, appended by record_attempt. -/
structure AttemptRecord where
  timestamp : Nat
  method : String
  success : Bool
  error : Option String
deriving DecidableEq

/-- The persisted state dict of DownloadState, restricted to the fields the
ledger operations govern (meetings, download_attempts, successful_downloads,
failed_downloads). -/
structure DState where
  meetings : List (String × Meeting)
  download_attempts : List (String × List AttemptRecord)
  successful_downloads : List String
  failed_downloads : List String
deriving DecidableEq

/-- The fresh state built by _load_state when the state file is missing
or corrupt. -/
def initialState : DState :=
  { meetings := [], download_attempts := [], successful_downloads := [],
    failed_downloads := [] }

/-- Dict lookup on an association list: Python the membership test on a
dict followed by indexing. -/
def lookupKey (k : String) : List (String × β) → Option β
  | [] => none
  | (k2, v) :: rest => if k2 = k then some v else lookupKey k rest

/-- Dict update on an association list: Python d[k] = f(d.get(k)) where an
existing key keeps its position and a new key is appended at the end. -/
def upsert (k : String) (f : Option β → β) : List (String × β) → List (String × β)
  | [] => [(k, f none)]
  | (k', v) :: rest =>
    if k' = k then (k', f (some v)) :: rest else (k', v) :: upsert k f rest

/-- Update the value at a key if it is present, as Python
"if k in d: mutate d[k]" does; absent keys are left untouched. -/
def updateEntry (k : String) (f : β → β) :
    List (String × β) → List (String × β)
  | [] => []
  | (k2, v) :: rest =>
    (if k2 = k then (k2, f v) else (k2, v)) :: updateEntry k f rest

/-- DownloadState.register_meeting: a no-op when the id is already a key of
the meetings dict, otherwise insert a fresh pending entry; save() runs in
both cases. -/
def register_meeting (meeting_id title url : String) (now : Nat) (s : DState) :
    DState :=
  if (lookupKey meeting_id s.meetings).isSome then s
  else
    { s with
      meetings := s.meetings ++
        [(meeting_id,
          { id := meeting_id, title := title, url := url,
            status := Status.pending, discovered_at := now,
            download_path := none, file_size := none, method_used := none })] }

/-- DownloadState.record_attempt: append one AttemptRecord to the per-id list,
creating the list when the id is new. -/
def record_attempt (meeting_id method : String) (success : Bool)
    (error : Option String) (now : Nat) (s : DState) : DState :=
  { s with
    download_attempts :=
      upsert meeting_id
        (fun prev => prev.getD [] ++
          [{ timestamp := now, method := method, success := success,
             error := error }])
        s.download_attempts }

/-- DownloadState.mark_success: set the entry fields when the id is
registered, append the id to successful_downloads when absent, and remove
its first occurrence from failed_downloads when present. -/
def mark_success (meeting_id file_path method : String) (file_size : Nat)
    (s : DState) : DState :=
  let s :=
    { s with
      meetings :=
        updateEntry meeting_id
          (fun m =>
            { m with status := Status.success,
                     download_path := some file_path,
                     file_size := some file_size,
                     method_used := some method })
          s.meetings }
  let s :=
    if meeting_id ∈ s.successful_downloads then s
    else { s with successful_downloads := s.successful_downloads ++ [meeting_id] }
  if meeting_id ∈ s.failed_downloads then
    { s with failed_downloads := s.failed_downloads.erase meeting_id }
  else s

/-- DownloadState.mark_failure: set the status of a registered entry to
failed and append the id to failed_downloads when absent.  The code has no
check of the current status and does not touch successful_downloads. -/
def mark_failure (meeting_id : String) (s : DState) : DState :=
  let s :=
    { s with
      meetings :=
        updateEntry meeting_id (fun m => { m with status := Status.failed })
          s.meetings }
  if meeting_id ∈ s.failed_downloads then s
  else { s with failed_downloads := s.failed_downloads ++ [meeting_id] }

/-- DownloadState.get_pending_meetings: the entries whose status is pending
or failed, in meetings-dict order. -/
def get_pending_meetings (s : DState) : List Meeting :=
  (s.meetings.filter
    (fun p => decide (p.2.status = Status.pending ∨ p.2.status = Status.failed))).map
    Prod.snd

/-- DownloadState.is_downloaded: membership in successful_downloads. -/
def is_downloaded (meeting_id : String) (s : DState) : Bool :=
  s.successful_downloads.contains meeting_id

/-- Result record of DownloadState.get_stats. -/
structure Stats where
  total_meetings : Nat
  successful : Nat
  failed : Nat
  pending : Nat
deriving DecidableEq

/-- DownloadState.get_stats. -/
def get_stats (s : DState) : Stats :=
  { total_meetings := s.meetings.length,
    successful := s.successful_downloads.length,
    failed := s.failed_downloads.length,
    pending := (get_pending_meetings s).length }

/-- The four mutating ledger operations, as abstract events. -/
inductive LedgerOp where
  | register (meeting_id title url : String) (now : Nat)
  | recordAttempt (meeting_id method : String) (success : Bool)
      (error : Option String) (now : Nat)
  | markSuccess (meeting_id file_path method : String) (file_size : Nat)
  | markFailure (meeting_id : String)
deriving DecidableEq

/-- Apply one ledger operation to a state. -/
def applyOp (op : LedgerOp) (s : DState) : DState :=
  match op with
  | LedgerOp.register meeting_id title url now =>
      register_meeting meeting_id title url now s
  | LedgerOp.recordAttempt meeting_id method success error now =>
      record_attempt meeting_id method success error now s
  | LedgerOp.markSuccess meeting_id file_path method file_size =>
      mark_success meeting_id file_path method file_size s
  | LedgerOp.markFailure meeting_id => mark_failure meeting_id s

/-- Apply a sequence of ledger operations from left to right. -/
def applyOps (ops : List LedgerOp) (s : DState) : DState :=
  ops.foldl (fun s op => applyOp op s) s

/-- Status of the entry for an id, through the meetings dict. -/
def statusOf (meeting_id : String) (s : DState) : Option Status :=
  (lookupKey meeting_id s.meetings).map Meeting.status

/-- The successful and failed id lists have no common element. -/
def DisjointSF (s : DState) : Prop :=
  ∀ x ∈ s.successful_downloads, x ∉ s.failed_downloads

/-- States reachable from the fresh state by ledger operations in which
mark_failure is only ever applied to an id that is not currently in
successful_downloads. -/
inductive SafeReachable : DState → Prop where
  | init : SafeReachable initialState
  | step (op : LedgerOp) (s : DState) (hs : SafeReachable s)
      (hguard : ∀ meeting_id, op = LedgerOp.markFailure meeting_id →
        meeting_id ∉ s.successful_downloads) :
      SafeReachable (applyOp op s)

/-- Representation invariant of the meetings dict: keys are distinct (a
Python dict cannot hold a key twice) and each entry stores its own key in
its id field (register_meeting writes it that way). -/
def WF (s : DState) : Prop :=
  (s.meetings.map Prod.fst).Nodup ∧ ∀ p ∈ s.meetings, p.2.id = p.1

/-- Number of entries of the meetings list holding a given key. -/
def countKey (k : String) (l : List (String × Meeting)) : Nat :=
  (l.filter (fun p => decide (p.1 = k))).length

/-- Characters removed by the sanitizer regex of otter_downloader.py,
namely the class with angle brackets, colon, double quote, slashes, pipe,
question mark, star, newline, carriage return and tab. -/
def reserved_chars : List Char :=
  ['<', '>', ':', '"', '/', '\\', '|', '?', '*', '\n', '\r', '\t']

/-- Characters matched by the Python regex whitespace class on str values:
the ASCII whitespace characters together with the Unicode space
characters. -/
def py_whitespace : List Char :=
  [' ', '\t', '\n', '\r', '\x0b', '\x0c',
   '\x1c', '\x1d', '\x1e', '\x1f', '\u0085', '\u00a0', '\u1680',
   '\u2000', '\u2001', '\u2002', '\u2003', '\u2004', '\u2005', '\u2006',
   '\u2007', '\u2008', '\u2009', '\u200a',
   '\u2028', '\u2029', '\u202f', '\u205f', '\u3000']

/-- Whitespace test for the regex whitespace class. -/
def isPySpace (c : Char) : Bool := py_whitespace.contains c

/-- Underscore test. -/
def isUnderscore (c : Char) : Bool := c == '_'

/-- Replace every maximal nonempty run of characters satisfying p by the
single character r; this is re.sub of a one-or-more character-class
pattern by a one-character replacement. -/
def collapseRuns (p : Char → Bool) (r : Char) : List Char → List Char
  | [] => []
  | c :: cs =>
    if p c then r :: collapseRuns p r (cs.dropWhile p)
    else c :: collapseRuns p r cs
termination_by l => l.length
decreasing_by
  · exact Nat.lt_succ_of_le (List.dropWhile_suffix p).sublist.length_le
  · simp

/-- Python str.strip restricted to a character predicate: drop matching
characters from both ends. -/
def stripEnds (p : Char → Bool) (l : List Char) : List Char :=
  ((l.dropWhile p).reverse.dropWhile p).reverse

/-- Remove every reserved character, as re.sub with an empty replacement. -/
def removeReserved (l : List Char) : List Char :=
  l.filter (fun c => !reserved_chars.contains c)

/-- sanitize_filename of otter_downloader.py: remove the reserved
characters, collapse whitespace runs to single underscores, collapse
underscore runs, truncate to 80 characters and strip leading and trailing
underscores. -/
def sanitize_filename (l : List Char) : List Char :=
  stripEnds isUnderscore
    (List.take 80
      (collapseRuns isUnderscore '_'
        (collapseRuns isPySpace '_' (removeReserved l))))

/-- Python str.split on the newline character: the empty string gives one
empty piece and a trailing newline yields a trailing empty piece. -/
def splitLines : List Char → List (List Char)
  | [] => [[]]
  | c :: cs =>
    if c = '\n' then [] :: splitLines cs
    else
      match splitLines cs with
      | [] => [[c]]
      | l :: ls => (c :: l) :: ls

/-- Join pieces with single newlines, the inverse of splitLines. -/
def joinLines : List (List Char) → List Char
  | [] => []
  | [l] => l
  | l :: ls => l ++ '\n' :: joinLines ls

/-- Join pieces with an arbitrary separator, Python sep.join. -/
def joinWith (sep : List Char) : List (List Char) → List Char
  | [] => []
  | [l] => l
  | l :: ls => l ++ sep ++ joinWith sep ls

/-- UI-chrome phrases whose presence excludes a line from the extracted
transcript. -/
def denylist : List (List Char) :=
  ["sign out".data, "settings".data, "help".data, "export".data,
   "share".data]

/-- Line filter of strategy_text_extraction: keep a stripped line when it
is nonempty, longer than 5 characters, and its lowercase form contains no
denylist phrase. -/
def keepLine (stripped : List Char) : Bool :=
  decide (stripped ≠ []) && decide (5 < stripped.length) &&
    !(denylist.any (fun d => decide (d <:+: stripped.map Char.toLower)))

/-- Clean-up pass of strategy_text_extraction: split the combined text
into lines, strip each line, keep the qualifying lines and rejoin with
newlines. -/
def clean_transcript (combined : List Char) : List Char :=
  joinLines
    ((splitLines combined).filterMap
      (fun line =>
        let s := stripEnds isPySpace line
        if keepLine s then some s else none))

/-- Environment of strategy_text_extraction, holding what the selector
queries of the loaded page return: quickContainer is the inner text of the
first match of the combined quick selector, selectorTexts lists per
transcript selector in order the inner texts of its matched elements, and
mainTexts lists per main-content selector in order the inner text of its
first match when one exists. -/
structure StrategyPage where
  quickContainer : Option (List Char)
  selectorTexts : List (List (List Char))
  mainTexts : List (Option (List Char))

/-- Selector loop of strategy_text_extraction: per selector, collect the
stripped element texts longer than 50 characters and stop at the first
selector that yields any. -/
def gatherSelectors : List (List (List Char)) → List (List Char)
  | [] => []
  | sel :: rest =>
    let found :=
      (sel.map (stripEnds isPySpace)).filter
        (fun t => decide (t ≠ []) && decide (50 < t.length))
    if found ≠ [] then found else gatherSelectors rest

/-- Text gathering of strategy_text_extraction: use the quick container
alone when its text exceeds 500 characters, otherwise run the selector
loop. -/
def gather_all_text (p : StrategyPage) : List (List Char) :=
  match p.quickContainer with
  | some t => if 500 < t.length then [t] else gatherSelectors p.selectorTexts
  | none => gatherSelectors p.selectorTexts

/-- Fallback of strategy_text_extraction for short combined text: walk the
main-content selectors, overwriting the combined text with each found
inner text, and stop at the first one longer than 200 characters. -/
def mainFallback (mains : List (Option (List Char))) (combined : List Char) :
    List Char :=
  match mains with
  | [] => combined
  | none :: rest => mainFallback rest combined
  | some t :: rest => if 200 < t.length then t else mainFallback rest t

/-- Combined text of strategy_text_extraction after joining the gathered
containers with blank lines and applying the short-text fallback. -/
def final_combined (p : StrategyPage) : List Char :=
  let c := joinWith ('\n' :: '\n' :: []) (gather_all_text p)
  if c.length < 100 then mainFallback p.mainTexts c else c

/-- strategy_text_extraction of otter_downloader.py, strategy 1 of the
extraction chain: succeed with the cleaned text exactly when the combined
text and its cleaned form are both longer than 100 characters. -/
def strategy_text_extraction (p : StrategyPage) : Option (List Char) :=
  let c := final_combined p
  if decide (c ≠ []) && decide (100 < c.length) then
    let clean := clean_transcript c
    if 100 < clean.length then some clean else none
  else none

/-- JSON-like values found in the client-side state globals: strings,
string-keyed objects, arrays, and everything else (numbers, booleans,
null). -/
inductive Data where
  | str (s : List Char)
  | dict (entries : List (String × Data))
  | arr (items : List Data)
  | other

/-- Transcript keys probed first by extract_transcript_from_data. -/
def transcript_keys : List String :=
  ["transcript", "text", "content", "body", "speech", "monologue"]

/-- Core of extract_transcript_from_data with the growing depth counter
replaced by the remaining depth budget: fuel stands for 11 minus the
Python depth argument, so fuel 0 is exactly the guard that stops at depth
greater than 10.  On a string, succeed when it is longer than 200
characters; on a dict, probe the transcript keys first and then every
value in order, keeping a value result only beyond 200 characters; on an
array, join the truthy item results with newlines. -/
def etfdAux : Nat → Data → Option (List Char)
  | 0, _ => none
  | fuel + 1, d =>
    match d with
    | Data.str s => if 200 < s.length then some s else none
    | Data.other => none
    | Data.dict es =>
      (match transcript_keys.findSome?
          (fun k => (lookupKey k es).bind (fun v => etfdAux fuel v)) with
       | some r => some r
       | none =>
         es.findSome? (fun p =>
           match etfdAux fuel p.2 with
           | some r => if 200 < r.length then some r else none
           | none => none))
    | Data.arr items =>
      (match items.filterMap (fun d => etfdAux fuel d) with
       | [] => none
       | ts => some (joinWith ('\n' :: []) ts))

/-- extract_transcript_from_data of otter_downloader.py at its entry depth
of zero. -/
def extract_transcript_from_data (d : Data) : Option (List Char) :=
  etfdAux 11 d

/-- Decision core of strategy_direct_api: the stringified page state must
be longer than 1000 characters, it must parse, and the recursive search
must yield a transcript longer than 100 characters. -/
def strategy_direct_api_core (raw_len : Nat) (parsed : Option Data) :
    Option (List Char) :=
  if 1000 < raw_len then
    match parsed with
    | some d =>
      (match extract_transcript_from_data d with
       | some t => if 100 < t.length then some t else none
       | none => none)
    | none => none
  else none

/-- Loop of scroll_to_load_all over the state previous_count,
no_change_count and scroll_count; feed gives the conversation count
observed after each scroll, numbering scrolls from 1. -/
def scrollAux (feed : Nat → Nat) (max_scrolls : Nat) :
    Nat → Nat → Nat → Nat × Nat
  | prev, no_change, scroll_count =>
    if h : no_change < 15 ∧ scroll_count < max_scrolls then
      scrollAux feed max_scrolls (feed (scroll_count + 1))
        (if feed (scroll_count + 1) = prev then no_change + 1 else 0)
        (scroll_count + 1)
    else (prev, scroll_count)
termination_by _ _ scroll_count => max_scrolls - scroll_count
decreasing_by omega

/-- Count held in previous_count when scroll_count is n: zero before the
first scroll, the observed count afterwards. -/
def feedAt (feed : Nat → Nat) (n : Nat) : Nat :=
  if n = 0 then 0 else feed n

/-- scroll_to_load_all of otter_downloader.py, abstracted over the
observed counts: returns the final previous_count together with the number
of scroll iterations performed. -/
def scroll_to_load_all (feed : Nat → Nat) (max_scrolls : Nat) : Nat × Nat :=
  scrollAux feed max_scrolls 0 0 0

/-- Outcomes of run_download as returned to main: the early aborts return
False, the nothing-pending path returns True, and the completed path
returns whether the final failed count is zero. -/
inductive SeqRunOutcome where
  | loginFailed
  | stillOnLogin
  | noMeetings
  | allDownloaded
  | completed (final_stats : Stats)

/-- Boolean success value run_download hands back to main. -/
def run_download_success : SeqRunOutcome → Bool
  | SeqRunOutcome.loginFailed => false
  | SeqRunOutcome.stillOnLogin => false
  | SeqRunOutcome.noMeetings => false
  | SeqRunOutcome.allDownloaded => true
  | SeqRunOutcome.completed final_stats => final_stats.failed == 0

/-- Process exit status chosen by main of otter_downloader.py: zero when
run_download returned True, one otherwise. -/
def main_exit_code (o : SeqRunOutcome) : Nat :=
  if run_download_success o then 0 else 1

/-- Concrete ledger evolution used by counterexamples: one id is
registered, marked successful, then marked failed. -/
def exLedger0 : DState :=
  register_meeting "meeting-abcdef" "Weekly sync"
    "https://otter.ai/u/meeting-abcdef" 0 initialState

/-- Second stage of the concrete evolution: the id is marked successful. -/
def exLedger1 : DState :=
  mark_success "meeting-abcdef" "downloads/Weekly_sync_meeting-abcdef.txt"
    "text_extraction" 1234 exLedger0

/-- Third stage of the concrete evolution: the successful id is then
marked failed. -/
def exLedger2 : DState := mark_failure "meeting-abcdef" exLedger1

/-- A 99-character container text. -/
def exText99 : List Char := List.replicate 99 'a'

/-- A 101-character container text. -/
def exText101 : List Char := List.replicate 101 'a'

/-- A page whose only content container text has exactly 99 characters
and whose main-content selectors match nothing. -/
def exPage99 : StrategyPage :=
  { quickContainer := none, selectorTexts := [[exText99]],
    mainTexts := [none, none, none, none] }

/-- A page whose only content container text has exactly 101 characters,
all of which survive the chrome-line filtering. -/
def exPage101 : StrategyPage :=
  { quickContainer := none, selectorTexts := [[exText101]],
    mainTexts := [none, none, none, none] }

end OtterDownloader

namespace OtterParallel

/-- One entry of the meetings map of the shared state file as used by
otter_parallel.py; mark_success and mark_failure mutate the status,
download metadata and error fields. -/
structure PMeeting where
  id : String
  title : String
  url : String
  status : OtterDownloader.Status
  download_path : Option String
  file_size : Option Nat
  method_used : Option String
  error : Option String
deriving DecidableEq

/-- The persisted state dict of ParallelState, restricted to the fields
its operations govern. -/
structure PState where
  meetings : List (String × PMeeting)
  successful_downloads : List String
  failed_downloads : List String
deriving DecidableEq

/-- The fresh state built by ParallelState when the state file is missing
or corrupt. -/
def initialPState : PState :=
  { meetings := [], successful_downloads := [], failed_downloads := [] }

/-- ParallelState.is_downloaded: membership in successful_downloads. -/
def is_downloaded (meeting_id : String) (st : PState) : Bool :=
  st.successful_downloads.contains meeting_id

/-- In-memory mutation of ParallelState.mark_success: append the id to
successful_downloads when absent and fill the entry fields of a
registered meeting.  failed_downloads is not touched.  The lock and
save() behaviour of the method is modelled separately by
mark_success_lock_trace. -/
def mark_success (meeting_id path : String) (file_size : Nat)
    (st : PState) : PState :=
  let st :=
    if meeting_id ∈ st.successful_downloads then st
    else
      { st with successful_downloads := st.successful_downloads ++ [meeting_id] }
  { st with
    meetings :=
      OtterDownloader.updateEntry meeting_id
        (fun m =>
          { m with status := OtterDownloader.Status.success,
                   download_path := some path,
                   file_size := some file_size,
                   method_used := some "text_extraction" })
        st.meetings }

/-- In-memory mutation of ParallelState.mark_failure: append the id to
failed_downloads when absent and set the status and error fields of a
registered meeting.  The code has no check of the current status and does
not touch successful_downloads. -/
def mark_failure (meeting_id error : String) (st : PState) : PState :=
  let st :=
    if meeting_id ∈ st.failed_downloads then st
    else { st with failed_downloads := st.failed_downloads ++ [meeting_id] }
  { st with
    meetings :=
      OtterDownloader.updateEntry meeting_id
        (fun m =>
          { m with status := OtterDownloader.Status.failed,
                   error := some error })
        st.meetings }

/-- ParallelState.get_pending_meetings: every meeting whose id is not in
successful_downloads, in meetings-dict order. -/
def get_pending_meetings (st : PState) : List PMeeting :=
  (st.meetings.filter
    (fun p => !st.successful_downloads.contains p.1)).map Prod.snd

/-- ParallelState.get_progress: downloaded count and total count. -/
def get_progress (st : PState) : Nat × Nat :=
  (st.successful_downloads.length, st.meetings.length)

/-- Status of the entry for an id, through the meetings dict of the
parallel state. -/
def pStatusOf (meeting_id : String) (st : PState) : Option OtterDownloader.Status :=
  (OtterDownloader.lookupKey meeting_id st.meetings).map PMeeting.status

/-- Operations a thread performs on one lock. -/
inductive LockOp where
  | acquire
  | release

/-- Execution of a sequence of operations on one non-reentrant lock by a
single thread, as Python threading.Lock behaves: acquiring a lock the
thread already holds blocks it forever, and releasing an unheld lock
raises; both stuck situations are modelled as none.  The Bool tracks
whether the thread holds the lock. -/
def runLockOps : Bool → List LockOp → Option Bool
  | held, [] => some held
  | held, LockOp.acquire :: rest => if held then none else runLockOps true rest
  | held, LockOp.release :: rest => if held then runLockOps false rest else none

/-- Lock operations of ParallelState.save on the instance lock: its
with-statement acquires and releases once. -/
def save_lock_trace : List LockOp := [LockOp.acquire, LockOp.release]

/-- Lock operations of ParallelState.mark_success on the instance lock:
the with-statement of the method acquires it and, before releasing, the
method body calls save(), whose own with-statement acquires the same
non-reentrant lock again. -/
def mark_success_lock_trace : List LockOp :=
  [LockOp.acquire, LockOp.acquire, LockOp.release, LockOp.release]

/-- Lock operations of ParallelState.mark_failure on the instance lock,
with the same nested save() call as mark_success. -/
def mark_failure_lock_trace : List LockOp :=
  [LockOp.acquire, LockOp.acquire, LockOp.release, LockOp.release]

/-- Characters replaced by underscores in sanitize_filename of
otter_parallel.py; unlike the downloader variant, the class has no tab
and matching characters are replaced rather than removed. -/
def reserved_chars_parallel : List Char :=
  ['<', '>', ':', '"', '/', '\\', '|', '?', '*', '\n', '\r']

/-- sanitize_filename of otter_parallel.py: replace each reserved
character by an underscore, collapse underscore runs, truncate to
max_length characters and strip leading and trailing underscores.  The
function performs no whitespace collapsing. -/
def sanitize_filename (title : List Char) (max_length : Nat) : List Char :=
  OtterDownloader.stripEnds OtterDownloader.isUnderscore
    (List.take max_length
      (OtterDownloader.collapseRuns OtterDownloader.isUnderscore '_'
        (title.map
          (fun c => if reserved_chars_parallel.contains c then '_' else c))))

/-- Environment of a parallel worker: per transcript selector the inner
texts of its matched elements, the inner text of the document body, and
the client-side state globals of the page together with the length of
their stringified form.  The worker code reads only the first two
fields; the state globals are part of the page model because claim C5
compares the worker against the structured-data strategy. -/
structure WPage where
  selectorTexts : List (List (List Char))
  bodyText : List Char
  clientState : Option OtterDownloader.Data
  clientStateRawLen : Nat

/-- Header block prepended to a saved transcript by
extract_transcript_text: source title (first line only), source URL,
timestamp, extraction method and a separator rule. -/
def extraction_header (title url now method : List Char) : List Char :=
  "Meeting: ".data ++ title.takeWhile (fun c => c != '\n') ++
  "\nURL: ".data ++ url ++
  "\nDownloaded: ".data ++ now ++
  "\nMethod: ".data ++ method ++ ('\n' :: []) ++
  List.replicate 60 '=' ++ "\n\n".data

/-- Selector pass of extract_transcript_text of otter_parallel.py:
collect, across all selectors, every element text longer than 50
characters (no stripping and no early stop in this variant). -/
def worker_content_parts (p : WPage) : List (List Char) :=
  (p.selectorTexts.map
    (fun sel => sel.filter (fun t => decide (t ≠ []) && decide (50 < t.length)))).flatten

/-- extract_transcript_text of otter_parallel.py: when the selector pass
found content, return it joined by newlines under a header; otherwise
evaluate a script returning the body inner text and return it under a
header when it is longer than 200 characters; otherwise return the empty
string.  The structured-data globals of the page are never consulted. -/
def extract_transcript_text (p : WPage) (title url now : List Char) :
    List Char :=
  let parts := worker_content_parts p
  if parts ≠ [] then
    extraction_header title url now "parallel_text_extraction".data ++
      OtterDownloader.joinWith ('\n' :: []) parts
  else if decide (p.bodyText ≠ []) && decide (200 < p.bodyText.length) then
    extraction_header title url now "parallel_body_extraction".data ++ p.bodyText
  else []

/-- Outcome of one worker task. -/
inductive WorkerResult where
  | skipped
  | downloaded (file_size : Nat)
  | failed (error : String)
deriving DecidableEq

/-- File name written by download_single_transcript: the sanitized
truncated title, an underscore, the first 15 characters of the id and the
txt suffix. -/
def save_filename (title50 : List Char) (meeting_id : String) : List Char :=
  sanitize_filename title50 100 ++ '_' :: meeting_id.data.take 15 ++ ".txt".data

/-- download_single_transcript of otter_parallel.py over a page
environment, as a transformation of the in-memory state (the lock and
save behaviour of the state methods is modelled separately by the lock
traces).  The worker skips an id that is already downloaded; otherwise it
extracts text and either persists success with the written file size
(modelled as the character count of the text) or persists failure with
the error captured.  There is no retry loop. -/
def download_single_transcript (p : WPage) (meeting_id : String)
    (title url now : List Char) (st : PState) : WorkerResult × PState :=
  if is_downloaded meeting_id st then (WorkerResult.skipped, st)
  else
    let t := extract_transcript_text p title url now
    if decide (t ≠ []) && decide (100 < t.length) then
      (WorkerResult.downloaded t.length,
       mark_success meeting_id
         (String.mk (save_filename (title.take 50) meeting_id)) t.length st)
    else
      (WorkerResult.failed "No transcript content found",
       mark_failure meeting_id "No transcript content found" st)

/-- Extraction chain as claim C5 describes the worker: strategy 1 is the
worker selector pass and strategy 2 is the structured-data search of
strategy_direct_api of otter_downloader.py over the client-side state
globals of the page.  This definition exists to be compared with the
worker extraction actually implemented in otter_parallel.py. -/
def spec_worker_extraction (p : WPage) : Option (List Char) :=
  let parts := worker_content_parts p
  if parts ≠ [] then some (OtterDownloader.joinWith ('\n' :: []) parts)
  else
    OtterDownloader.strategy_direct_api_core p.clientStateRawLen p.clientState

/-- Tally of run_parallel_download over the completed worker futures,
together with the process exit status: the script ends without any exit
call, so the interpreter finishes with status zero regardless of the
failure count. -/
structure ParallelRunSummary where
  success_count : Nat
  fail_count : Nat
  exit_code : Nat
deriving DecidableEq

/-- Final tally and process exit status of a parallel run whose worker
futures returned the given results. -/
def run_parallel_summary (results : List Bool) : ParallelRunSummary :=
  { success_count := (results.filter (fun b => b)).length,
    fail_count := (results.filter (fun b => !b)).length,
    exit_code := 0 }

/-- A page on which the worker selector pass and the body text find
nothing, while the client-side state globals hold a transcript of 250
characters under the transcript key. -/
def exStructuredPage : WPage :=
  { selectorTexts := [[], [], [], [], []], bodyText := [],
    clientState :=
      some (OtterDownloader.Data.dict
        [("transcript", OtterDownloader.Data.str (List.replicate 250 'a'))]),
    clientStateRawLen := 2000 }

/-- A page whose first selector matches one element with 120 characters
of text. -/
def exWorkerPage : WPage :=
  { selectorTexts := [[List.replicate 120 'b']], bodyText := [],
    clientState := none, clientStateRawLen := 0 }

end OtterParallel

namespace OtterDownloader

theorem countKey_append (k : String) (l l2 : List (String × Meeting)) :
    countKey k (l ++ l2) = countKey k l + countKey k l2 := by
  simp [countKey, List.filter_append]

theorem lookupKey_isSome_iff (k : String) (l : List (String × Meeting)) :
    (lookupKey k l).isSome ↔ 0 < countKey k l := by
  induction l with
  | nil => simp [lookupKey, countKey]
  | cons p rest ih =>
    obtain ⟨k2, v⟩ := p
    by_cases h : k2 = k
    · subst h; simp [lookupKey, countKey]
    · simpa [lookupKey, countKey, h] using ih

theorem lookupKey_updateEntry_self (k : String) (f : β → β)
    (l : List (String × β)) :
    lookupKey k (updateEntry k f l) = (lookupKey k l).map f := by
  induction l with
  | nil => rfl
  | cons p rest ih =>
    obtain ⟨k2, v⟩ := p
    simp only [updateEntry]
    split
    · next h => subst h; simp [lookupKey]
    · next h => simp [lookupKey, h, ih]

theorem lookupKey_updateEntry_ne (kd k : String) (f : β → β)
    (l : List (String × β)) (h : kd ≠ k) :
    lookupKey k (updateEntry kd f l) = lookupKey k l := by
  induction l with
  | nil => rfl
  | cons p rest ih =>
    obtain ⟨k2, v⟩ := p
    simp only [updateEntry]
    split
    · next h2 => subst h2; simp [lookupKey, h, ih]
    · next h2 => simp [lookupKey, ih]

theorem lookupKey_append (k : String) (l l2 : List (String × Meeting)) :
    lookupKey k (l ++ l2) = ((lookupKey k l).or (lookupKey k l2)) := by
  induction l with
  | nil => rfl
  | cons p rest ih =>
    obtain ⟨k2, v⟩ := p
    by_cases h : k2 = k
    · subst h; simp [lookupKey]
    · simpa [lookupKey, h] using ih

theorem register_successful_eq (mid t u : String) (n : Nat) (s : DState) :
    (register_meeting mid t u n s).successful_downloads =
      s.successful_downloads := by
  unfold register_meeting; split <;> rfl

theorem register_failed_eq (mid t u : String) (n : Nat) (s : DState) :
    (register_meeting mid t u n s).failed_downloads = s.failed_downloads := by
  unfold register_meeting; split <;> rfl

theorem mark_success_meetings_eq (mid fp m : String) (n : Nat) (s : DState) :
    (mark_success mid fp m n s).meetings =
      updateEntry mid
        (fun mt =>
          { mt with status := Status.success, download_path := some fp,
                    file_size := some n, method_used := some m })
        s.meetings := by
  unfold mark_success; dsimp only; split <;> split <;> rfl

theorem mark_success_successful_eq (mid fp m : String) (n : Nat) (s : DState) :
    (mark_success mid fp m n s).successful_downloads =
      if mid ∈ s.successful_downloads then s.successful_downloads
      else s.successful_downloads ++ [mid] := by
  unfold mark_success; dsimp only; split <;> split <;> rfl

theorem mark_success_failed_eq (mid fp m : String) (n : Nat) (s : DState) :
    (mark_success mid fp m n s).failed_downloads =
      if mid ∈ s.failed_downloads then s.failed_downloads.erase mid
      else s.failed_downloads := by
  unfold mark_success; dsimp only; split <;> split <;> rfl

theorem mark_failure_meetings_eq (mid : String) (s : DState) :
    (mark_failure mid s).meetings =
      updateEntry mid (fun mt => { mt with status := Status.failed })
        s.meetings := by
  unfold mark_failure; dsimp only; split <;> rfl

theorem mark_failure_successful_eq (mid : String) (s : DState) :
    (mark_failure mid s).successful_downloads = s.successful_downloads := by
  unfold mark_failure; dsimp only; split <;> rfl

theorem mark_failure_failed_eq (mid : String) (s : DState) :
    (mark_failure mid s).failed_downloads =
      if mid ∈ s.failed_downloads then s.failed_downloads
      else s.failed_downloads ++ [mid] := by
  unfold mark_failure; dsimp only; split <;> rfl

end OtterDownloader

namespace OtterDownloader

theorem register_of_present (mid t u : String) (n : Nat) (s : DState)
    (h : (lookupKey mid s.meetings).isSome) :
    register_meeting mid t u n s = s := by
  unfold register_meeting
  simp [h]

theorem register_countKey_absent (mid t u : String) (n : Nat) (s : DState)
    (h : lookupKey mid s.meetings = none) :
    countKey mid (register_meeting mid t u n s).meetings =
      countKey mid s.meetings + 1 := by
  unfold register_meeting
  rw [h]
  simp [countKey_append, countKey]

end OtterDownloader

/-- C7: register is idempotent — registering an id twice leaves exactly
one entry for that id in the meetings map and the second call does not
modify the state at all, so in particular an entry whose status is
Success is not reset to Pending. -/
theorem c7_register_idempotent (s : OtterDownloader.DState)
    (meeting_id t u t2 u2 : String) (n n2 : Nat)
    (h : OtterDownloader.countKey meeting_id s.meetings ≤ 1) :
    OtterDownloader.register_meeting meeting_id t2 u2 n2
        (OtterDownloader.register_meeting meeting_id t u n s) =
      OtterDownloader.register_meeting meeting_id t u n s ∧
    OtterDownloader.countKey meeting_id
      (OtterDownloader.register_meeting meeting_id t u n s).meetings = 1 := by
  by_cases hl : (OtterDownloader.lookupKey meeting_id s.meetings).isSome
  · have h1 : OtterDownloader.register_meeting meeting_id t u n s = s :=
      OtterDownloader.register_of_present meeting_id t u n s hl
    rw [h1]
    have hpos := (OtterDownloader.lookupKey_isSome_iff meeting_id s.meetings).mp hl
    constructor
    · exact OtterDownloader.register_of_present meeting_id t2 u2 n2 s hl
    · omega
  · have hnone : OtterDownloader.lookupKey meeting_id s.meetings = none := by
      cases hcase : OtterDownloader.lookupKey meeting_id s.meetings with
      | none => rfl
      | some v => rw [hcase] at hl; simp at hl
    have hzero : OtterDownloader.countKey meeting_id s.meetings = 0 := by
      by_contra hc
      exact hl ((OtterDownloader.lookupKey_isSome_iff meeting_id s.meetings).mpr
        (Nat.pos_of_ne_zero hc))
    have hone : OtterDownloader.countKey meeting_id
        (OtterDownloader.register_meeting meeting_id t u n s).meetings = 1 := by
      rw [OtterDownloader.register_countKey_absent meeting_id t u n s hnone, hzero]
    refine ⟨?_, hone⟩
    have hsome : (OtterDownloader.lookupKey meeting_id
        (OtterDownloader.register_meeting meeting_id t u n s).meetings).isSome := by
      rw [OtterDownloader.lookupKey_isSome_iff, hone]
      omega
    exact OtterDownloader.register_of_present meeting_id t2 u2 n2 _ hsome

/-- C7 witness: from an empty ledger with a concrete id, the double
registration collapses to the single one and the meetings map holds
exactly one entry for the id. -/
theorem c7_register_idempotent_witness :
    OtterDownloader.countKey "meeting-abcdef"
        OtterDownloader.initialState.meetings ≤ 1 ∧
    OtterDownloader.register_meeting "meeting-abcdef" "t2" "u2" 7
        (OtterDownloader.register_meeting "meeting-abcdef" "Weekly sync"
          "https://otter.ai/u/meeting-abcdef" 0 OtterDownloader.initialState) =
      OtterDownloader.register_meeting "meeting-abcdef" "Weekly sync"
        "https://otter.ai/u/meeting-abcdef" 0 OtterDownloader.initialState :=
  ⟨by decide,
   (c7_register_idempotent OtterDownloader.initialState "meeting-abcdef"
     "Weekly sync" "https://otter.ai/u/meeting-abcdef" "t2" "u2" 0 7
     (by decide)).1⟩

namespace OtterParallel

theorem pmark_success_meetings_eq (mid path : String) (n : Nat) (st : PState) :
    (mark_success mid path n st).meetings =
      OtterDownloader.updateEntry mid
        (fun m =>
          { m with status := OtterDownloader.Status.success,
                   download_path := some path, file_size := some n,
                   method_used := some "text_extraction" })
        st.meetings := by
  unfold mark_success; dsimp only; split <;> rfl

theorem pmark_success_successful_eq (mid path : String) (n : Nat) (st : PState) :
    (mark_success mid path n st).successful_downloads =
      if mid ∈ st.successful_downloads then st.successful_downloads
      else st.successful_downloads ++ [mid] := by
  unfold mark_success; dsimp only; split <;> rfl

theorem pmark_success_failed_eq (mid path : String) (n : Nat) (st : PState) :
    (mark_success mid path n st).failed_downloads = st.failed_downloads := by
  unfold mark_success; dsimp only; split <;> rfl

theorem pmark_failure_meetings_eq (mid err : String) (st : PState) :
    (mark_failure mid err st).meetings =
      OtterDownloader.updateEntry mid
        (fun m =>
          { m with status := OtterDownloader.Status.failed,
                   error := some err })
        st.meetings := by
  unfold mark_failure; dsimp only; split <;> rfl

theorem pmark_failure_successful_eq (mid err : String) (st : PState) :
    (mark_failure mid err st).successful_downloads =
      st.successful_downloads := by
  unfold mark_failure; dsimp only; split <;> rfl

theorem pmark_failure_failed_eq (mid err : String) (st : PState) :
    (mark_failure mid err st).failed_downloads =
      if mid ∈ st.failed_downloads then st.failed_downloads
      else st.failed_downloads ++ [mid] := by
  unfold mark_failure; dsimp only; split <;> rfl

end OtterParallel

/-- C1 (amended): in both ledgers, markFailure sets the status of a
registered entry to Failed unconditionally — markSuccess then markFailure
on the same id leaves the entry status Failed, not Success — although
neither markFailure removes the id from the successful set, so
isDownloaded stays true. -/
theorem c1_mark_failure_unconditional (s : OtterDownloader.DState)
    (st : OtterParallel.PState) (meeting_id fp m path err : String)
    (n sz : Nat)
    (h1 : (OtterDownloader.lookupKey meeting_id s.meetings).isSome)
    (h2 : (OtterDownloader.lookupKey meeting_id st.meetings).isSome) :
    OtterDownloader.statusOf meeting_id
        (OtterDownloader.mark_failure meeting_id
          (OtterDownloader.mark_success meeting_id fp m n s)) =
      some OtterDownloader.Status.failed ∧
    OtterDownloader.is_downloaded meeting_id
        (OtterDownloader.mark_failure meeting_id
          (OtterDownloader.mark_success meeting_id fp m n s)) = true ∧
    OtterParallel.pStatusOf meeting_id
        (OtterParallel.mark_failure meeting_id err
          (OtterParallel.mark_success meeting_id path sz st)) =
      some OtterDownloader.Status.failed ∧
    OtterParallel.is_downloaded meeting_id
        (OtterParallel.mark_failure meeting_id err
          (OtterParallel.mark_success meeting_id path sz st)) = true := by
  obtain ⟨v, hv⟩ := Option.isSome_iff_exists.mp h1
  obtain ⟨w, hw⟩ := Option.isSome_iff_exists.mp h2
  refine ⟨?_, ?_, ?_, ?_⟩
  · rw [OtterDownloader.statusOf, OtterDownloader.mark_failure_meetings_eq,
      OtterDownloader.lookupKey_updateEntry_self,
      OtterDownloader.mark_success_meetings_eq,
      OtterDownloader.lookupKey_updateEntry_self, hv]
    rfl
  · rw [OtterDownloader.is_downloaded, OtterDownloader.mark_failure_successful_eq,
      OtterDownloader.mark_success_successful_eq]
    split
    · next hmem => simpa using hmem
    · simp
  · rw [OtterParallel.pStatusOf, OtterParallel.pmark_failure_meetings_eq,
      OtterDownloader.lookupKey_updateEntry_self,
      OtterParallel.pmark_success_meetings_eq,
      OtterDownloader.lookupKey_updateEntry_self, hw]
    rfl
  · rw [OtterParallel.is_downloaded, OtterParallel.pmark_failure_successful_eq,
      OtterParallel.pmark_success_successful_eq]
    split
    · next hmem => simpa using hmem
    · simp

/-- C1 (counterexample): on the concrete ledger evolution, markSuccess
then markFailure on the same id leaves the entry status Failed, not
Success, so the claimed success guard does not exist in the code. -/
theorem c1_counterexample :
    OtterDownloader.statusOf "meeting-abcdef" OtterDownloader.exLedger2 =
      some OtterDownloader.Status.failed ∧
    OtterDownloader.statusOf "meeting-abcdef" OtterDownloader.exLedger2 ≠
      some OtterDownloader.Status.success := by
  constructor
  · rfl
  · decide

/-- C1 witness: the amended theorem applied to the concrete singleton
ledgers. -/
theorem c1_mark_failure_unconditional_witness :
    (OtterDownloader.lookupKey "meeting-abcdef"
      OtterDownloader.exLedger0.meetings).isSome = true ∧
    OtterDownloader.statusOf "meeting-abcdef"
        (OtterDownloader.mark_failure "meeting-abcdef"
          (OtterDownloader.mark_success "meeting-abcdef" "p.txt" "text_extraction"
            9 OtterDownloader.exLedger0)) =
      some OtterDownloader.Status.failed :=
  ⟨by decide,
   (c1_mark_failure_unconditional OtterDownloader.exLedger0
     { meetings := [("meeting-abcdef",
        { id := "meeting-abcdef", title := "t", url := "u",
          status := OtterDownloader.Status.pending, download_path := none,
          file_size := none, method_used := none, error := none })],
       successful_downloads := [], failed_downloads := [] }
     "meeting-abcdef" "p.txt" "text_extraction" "q.txt" "boom" 9 11
     (by decide) (by decide)).1⟩

/-- C3: the lock usage of ParallelState contradicts the claimed
termination — mark_success and mark_failure acquire the non-reentrant
instance lock and then call save(), which acquires the same lock again
before any release, so the executing thread blocks forever; save() on its
own runs to completion. -/
theorem c3_lock_traces_deadlock :
    OtterParallel.runLockOps false OtterParallel.mark_success_lock_trace =
      none ∧
    OtterParallel.runLockOps false OtterParallel.mark_failure_lock_trace =
      none ∧
    OtterParallel.runLockOps false OtterParallel.save_lock_trace =
      some false :=
  ⟨rfl, rfl, rfl⟩

namespace OtterDownloader

theorem safe_step_inv (op : LedgerOp) (s : DState)
    (hd : DisjointSF s) (hn : s.failed_downloads.Nodup)
    (hguard : ∀ meeting_id, op = LedgerOp.markFailure meeting_id →
      meeting_id ∉ s.successful_downloads) :
    DisjointSF (applyOp op s) ∧ (applyOp op s).failed_downloads.Nodup := by
  cases op with
  | register mid t u n =>
    refine ⟨?_, ?_⟩
    · intro x hx
      rw [applyOp, register_failed_eq]
      rw [applyOp, register_successful_eq] at hx
      exact hd x hx
    · rw [applyOp, register_failed_eq]; exact hn
  | recordAttempt mid me su er n => exact ⟨hd, hn⟩
  | markSuccess mid fp m n =>
    refine ⟨?_, ?_⟩
    · intro x hx hxf
      rw [applyOp, mark_success_successful_eq] at hx
      rw [applyOp, mark_success_failed_eq] at hxf
      have hxs : x ∈ s.successful_downloads ∨ x = mid := by
        revert hx; split
        · intro hx; exact Or.inl hx
        · intro hx
          rcases List.mem_append.mp hx with h1 | h2
          · exact Or.inl h1
          · exact Or.inr (by simpa using h2)
      rcases hxs with h1 | h2
      · have hnf := hd x h1
        revert hxf; split
        · intro hxf; exact hnf (List.mem_of_mem_erase hxf)
        · intro hxf; exact hnf hxf
      · subst h2
        revert hxf; split
        · intro hxf; exact ((List.Nodup.mem_erase_iff hn).mp hxf).1 rfl
        · next hf => intro hxf; exact hf hxf
    · rw [applyOp, mark_success_failed_eq]
      split
      · exact hn.erase mid
      · exact hn
  | markFailure mid =>
    have hmid : mid ∉ s.successful_downloads := hguard mid rfl
    refine ⟨?_, ?_⟩
    · intro x hx hxf
      rw [applyOp, mark_failure_successful_eq] at hx
      rw [applyOp, mark_failure_failed_eq] at hxf
      revert hxf; split
      · intro hxf; exact hd x hx hxf
      · intro hxf
        rcases List.mem_append.mp hxf with h1 | h2
        · exact hd x hx h1
        · have hxe : x = mid := by simpa using h2
          subst hxe; exact hmid hx
    · rw [applyOp, mark_failure_failed_eq]
      split
      · exact hn
      · next hf => simp [List.nodup_append, hn, hf]

end OtterDownloader

/-- C2 (amended): along every run from the fresh ledger in which
markFailure is only applied to ids not currently successful, the
successful and failed id sets stay disjoint; markSuccess always moves the
id into the successful set and out of the failed set, while markFailure
never removes an id from the successful set.  (The unrestricted claim is
false: markFailure on a successful id puts the id in both sets, see the
counterexample.) -/
theorem c2_ledger_invariant (s : OtterDownloader.DState)
    (h : OtterDownloader.SafeReachable s) :
    OtterDownloader.DisjointSF s ∧
    (∀ meeting_id fp m n,
      OtterDownloader.is_downloaded meeting_id
        (OtterDownloader.mark_success meeting_id fp m n s) = true ∧
      meeting_id ∉
        (OtterDownloader.mark_success meeting_id fp m n s).failed_downloads) ∧
    (∀ meeting_id,
      (OtterDownloader.mark_failure meeting_id s).successful_downloads =
        s.successful_downloads) := by
  have main : OtterDownloader.DisjointSF s ∧ s.failed_downloads.Nodup := by
    induction h with
    | init =>
      refine ⟨?_, by simp [OtterDownloader.initialState]⟩
      intro x hx
      simp [OtterDownloader.initialState] at hx
    | step op s hs hguard ih =>
      exact OtterDownloader.safe_step_inv op s ih.1 ih.2 hguard
  refine ⟨main.1, ?_, ?_⟩
  · intro mid fp m n
    constructor
    · rw [OtterDownloader.is_downloaded,
        OtterDownloader.mark_success_successful_eq]
      split
      · next hmem => simpa using hmem
      · simp
    · rw [OtterDownloader.mark_success_failed_eq]
      split
      · exact fun hmem =>
          ((List.Nodup.mem_erase_iff main.2).mp hmem).1 rfl
      · next hf => exact hf
  · intro mid
    exact OtterDownloader.mark_failure_successful_eq mid s

/-- C2 (counterexample): the state reached from the fresh ledger by
register, markSuccess then markFailure on one id holds that id in both
the successful and the failed list, so disjointness does not hold in
every reachable state. -/
theorem c2_counterexample :
    "meeting-abcdef" ∈ OtterDownloader.exLedger2.successful_downloads ∧
    "meeting-abcdef" ∈ OtterDownloader.exLedger2.failed_downloads ∧
    ¬ OtterDownloader.DisjointSF OtterDownloader.exLedger2 := by
  refine ⟨by decide, by decide, ?_⟩
  intro hdis
  exact hdis "meeting-abcdef" (by decide) (by decide)

/-- C2 witness: a concrete guarded run — register, markFailure on the not
yet successful id, then markSuccess — keeps the two sets disjoint. -/
theorem c2_ledger_invariant_witness :
    OtterDownloader.DisjointSF
      (OtterDownloader.applyOp
        (OtterDownloader.LedgerOp.markSuccess "meeting-abcdef" "p.txt"
          "text_extraction" 5)
        (OtterDownloader.applyOp
          (OtterDownloader.LedgerOp.markFailure "meeting-abcdef")
          (OtterDownloader.applyOp
            (OtterDownloader.LedgerOp.register "meeting-abcdef" "t" "u" 0)
            OtterDownloader.initialState))) :=
  (c2_ledger_invariant _
    (OtterDownloader.SafeReachable.step _ _
      (OtterDownloader.SafeReachable.step _ _
        (OtterDownloader.SafeReachable.step _ _
          OtterDownloader.SafeReachable.init
          (by intro mid hco; cases hco))
        (by intro mid hco; cases hco; decide))
      (by intro mid hco; cases hco))).1

namespace OtterDownloader

theorem applyOp_successful_mono (op : LedgerOp) (s : DState) (x : String)
    (hx : x ∈ s.successful_downloads) :
    x ∈ (applyOp op s).successful_downloads := by
  cases op with
  | register mid t u n => rw [applyOp, register_successful_eq]; exact hx
  | recordAttempt mid me su er n => exact hx
  | markSuccess mid fp m n =>
    rw [applyOp, mark_success_successful_eq]
    split
    · exact hx
    · exact List.mem_append.mpr (Or.inl hx)
  | markFailure mid => rw [applyOp, mark_failure_successful_eq]; exact hx

theorem applyOps_successful_mono (ops : List LedgerOp) (s : DState)
    (x : String) (hx : x ∈ s.successful_downloads) :
    x ∈ (applyOps ops s).successful_downloads := by
  induction ops generalizing s with
  | nil => exact hx
  | cons op rest ih => exact ih _ (applyOp_successful_mono op s x hx)

theorem updateEntry_keys (k : String) (f : β → β) (l : List (String × β)) :
    (updateEntry k f l).map Prod.fst = l.map Prod.fst := by
  induction l with
  | nil => rfl
  | cons p rest ih =>
    obtain ⟨k2, v⟩ := p
    simp only [updateEntry]
    split
    · simp [ih]
    · simp [ih]

theorem lookupKey_isSome_of_mem_keys (k : String) (l : List (String × β))
    (h : k ∈ l.map Prod.fst) : (lookupKey k l).isSome := by
  induction l with
  | nil => simp at h
  | cons p rest ih =>
    obtain ⟨k2, v⟩ := p
    by_cases he : k2 = k
    · subst he; simp [lookupKey]
    · simp only [List.map_cons, List.mem_cons] at h
      rcases h with h1 | h2
      · exact absurd h1.symm he
      · simpa [lookupKey, he] using ih h2

theorem lookupKey_of_mem_nodup (k : String) (v : β) (l : List (String × β))
    (hnd : (l.map Prod.fst).Nodup) (h : (k, v) ∈ l) :
    lookupKey k l = some v := by
  induction l with
  | nil => cases h
  | cons p rest ih =>
    obtain ⟨k2, w⟩ := p
    simp only [List.map_cons, List.nodup_cons] at hnd
    rcases List.mem_cons.mp h with h1 | h2
    · cases h1
      simp [lookupKey]
    · by_cases he : k2 = k
      · subst he
        exact absurd (List.mem_map.mpr ⟨(k2, v), h2, rfl⟩) hnd.1
      · simpa [lookupKey, he] using ih hnd.2 h2

theorem applyOp_keys_nodup (op : LedgerOp) (s : DState)
    (h : (s.meetings.map Prod.fst).Nodup) :
    ((applyOp op s).meetings.map Prod.fst).Nodup := by
  cases op with
  | register mid t u n =>
    rw [applyOp]
    unfold register_meeting
    split
    · exact h
    · next hl =>
      have hmid : mid ∉ s.meetings.map Prod.fst := fun hc =>
        hl (lookupKey_isSome_of_mem_keys mid s.meetings hc)
      simp [List.nodup_append, h, hmid]
  | recordAttempt mid me su er n => exact h
  | markSuccess mid fp m n =>
    rw [applyOp, mark_success_meetings_eq, updateEntry_keys]; exact h
  | markFailure mid =>
    rw [applyOp, mark_failure_meetings_eq, updateEntry_keys]; exact h

theorem statusOf_applyOp_preserved (op : LedgerOp) (s : DState)
    (meeting_id : String) (hop : op ≠ LedgerOp.markFailure meeting_id)
    (h : statusOf meeting_id s = some Status.success) :
    statusOf meeting_id (applyOp op s) = some Status.success := by
  cases hme : lookupKey meeting_id s.meetings with
  | none => simp [statusOf, hme] at h
  | some mm =>
    rw [statusOf, hme] at h
    cases op with
    | register mid t u n =>
      rw [applyOp]
      unfold register_meeting
      split
      · rw [statusOf, hme]; exact h
      · rw [statusOf]
        dsimp only
        rw [lookupKey_append, hme]
        exact h
    | recordAttempt mid me su er n =>
      rw [applyOp, statusOf]
      unfold record_attempt
      dsimp only
      rw [hme]
      exact h
    | markSuccess mid fp m n =>
      rw [applyOp, statusOf, mark_success_meetings_eq]
      by_cases heq : mid = meeting_id
      · subst heq
        rw [lookupKey_updateEntry_self, hme]
        rfl
      · rw [lookupKey_updateEntry_ne _ _ _ _ heq, hme]
        exact h
    | markFailure mid =>
      have hne : mid ≠ meeting_id := by
        intro he; exact hop (by rw [he])
      rw [applyOp, statusOf, mark_failure_meetings_eq,
        lookupKey_updateEntry_ne _ _ _ _ hne, hme]
      exact h

theorem c4_status_aux (ops : List LedgerOp) (s : DState) (meeting_id : String)
    (hnd : (s.meetings.map Prod.fst).Nodup)
    (hst : statusOf meeting_id s = some Status.success)
    (havoid : ∀ op ∈ ops, op ≠ LedgerOp.markFailure meeting_id) :
    ((applyOps ops s).meetings.map Prod.fst).Nodup ∧
    statusOf meeting_id (applyOps ops s) = some Status.success := by
  induction ops generalizing s with
  | nil => exact ⟨hnd, hst⟩
  | cons op rest ih =>
    exact ih (applyOp op s) (applyOp_keys_nodup op s hnd)
      (statusOf_applyOp_preserved op s meeting_id
        (havoid op (List.mem_cons_self _ _)) hst)
      (fun o ho => havoid o (List.mem_cons_of_mem _ ho))

theorem pending_source_no_success_key (s : DState) (meeting_id : String)
    (hnd : (s.meetings.map Prod.fst).Nodup)
    (hst : statusOf meeting_id s = some Status.success) :
    ∀ p ∈ s.meetings.filter
        (fun p =>
          decide (p.2.status = Status.pending ∨ p.2.status = Status.failed)),
      p.1 ≠ meeting_id := by
  intro p hp he
  have hpm : p ∈ s.meetings := List.mem_of_mem_filter hp
  have hcond := List.of_mem_filter hp
  obtain ⟨k, v⟩ := p
  simp only at he hcond
  subst he
  rw [statusOf, lookupKey_of_mem_nodup k v s.meetings hnd hpm] at hst
  simp at hst
  rw [hst] at hcond
  simp at hcond

end OtterDownloader

/-- C4 (amended): once markSuccess has fired for an id, isDownloaded stays
true after every further sequence of ledger operations; the status stays
Success and the entry for the id is absent from the source status set of
pending() after every further sequence that contains no markFailure for
the same id.  (An unrestricted markFailure on the id puts its entry back
into pending, see the counterexample.) -/
theorem c4_success_permanent (s : OtterDownloader.DState)
    (ops : List OtterDownloader.LedgerOp) (meeting_id : String) :
    (OtterDownloader.is_downloaded meeting_id s = true →
      OtterDownloader.is_downloaded meeting_id
        (OtterDownloader.applyOps ops s) = true) ∧
    ((s.meetings.map Prod.fst).Nodup →
      OtterDownloader.statusOf meeting_id s =
        some OtterDownloader.Status.success →
      (∀ op ∈ ops, op ≠ OtterDownloader.LedgerOp.markFailure meeting_id) →
      OtterDownloader.statusOf meeting_id (OtterDownloader.applyOps ops s) =
        some OtterDownloader.Status.success ∧
      ∀ p ∈ (OtterDownloader.applyOps ops s).meetings.filter
          (fun p =>
            decide (p.2.status = OtterDownloader.Status.pending ∨
              p.2.status = OtterDownloader.Status.failed)),
        p.1 ≠ meeting_id) := by
  constructor
  · intro hd
    have hx : meeting_id ∈ s.successful_downloads := by
      simpa [OtterDownloader.is_downloaded] using hd
    simpa [OtterDownloader.is_downloaded] using
      OtterDownloader.applyOps_successful_mono ops s meeting_id hx
  · intro hnd hst havoid
    obtain ⟨hnd2, hst2⟩ :=
      OtterDownloader.c4_status_aux ops s meeting_id hnd hst havoid
    exact ⟨hst2,
      OtterDownloader.pending_source_no_success_key _ meeting_id hnd2 hst2⟩

/-- C4 (counterexample): after markSuccess on the id, the later
markFailure of the concrete evolution makes isDownloaded stay true but
puts the entry for the id back into the pending set, with status Failed,
so the unrestricted claim is false. -/
theorem c4_counterexample :
    OtterDownloader.is_downloaded "meeting-abcdef"
      OtterDownloader.exLedger2 = true ∧
    OtterDownloader.statusOf "meeting-abcdef" OtterDownloader.exLedger2 =
      some OtterDownloader.Status.failed ∧
    (OtterDownloader.get_pending_meetings
        OtterDownloader.exLedger2).map OtterDownloader.Meeting.id =
      ["meeting-abcdef"] := by
  refine ⟨by decide, rfl, rfl⟩

/-- C4 witness: from the concrete ledger in which the id is marked
successful, further operations avoiding markFailure on it keep the status
Success and keep isDownloaded true. -/
theorem c4_success_permanent_witness :
    OtterDownloader.statusOf "meeting-abcdef"
        (OtterDownloader.applyOps
          [OtterDownloader.LedgerOp.register "other-meeting-xy" "t" "u" 3,
           OtterDownloader.LedgerOp.markFailure "other-meeting-xy"]
          OtterDownloader.exLedger1) =
      some OtterDownloader.Status.success ∧
    OtterDownloader.is_downloaded "meeting-abcdef"
        (OtterDownloader.applyOps
          [OtterDownloader.LedgerOp.register "other-meeting-xy" "t" "u" 3,
           OtterDownloader.LedgerOp.markFailure "other-meeting-xy"]
          OtterDownloader.exLedger1) = true :=
  ⟨((c4_success_permanent OtterDownloader.exLedger1
      [OtterDownloader.LedgerOp.register "other-meeting-xy" "t" "u" 3,
       OtterDownloader.LedgerOp.markFailure "other-meeting-xy"]
      "meeting-abcdef").2 (by decide) (by decide) (by decide)).1,
   (c4_success_permanent OtterDownloader.exLedger1
      [OtterDownloader.LedgerOp.register "other-meeting-xy" "t" "u" 3,
       OtterDownloader.LedgerOp.markFailure "other-meeting-xy"]
      "meeting-abcdef").1 (by decide)⟩

/-- C10 (amended): in the sequential orchestrator the completed-run path
exits with status zero exactly when the final failed count is zero, so a
remaining failed item forces exit status one; the parallel orchestrator
script, however, ends without any exit call and therefore always
finishes with process exit status zero, whatever its failure tally. -/
theorem c10_exit_codes :
    (∀ st : OtterDownloader.Stats,
      (OtterDownloader.main_exit_code
          (OtterDownloader.SeqRunOutcome.completed st) = 0 ↔ st.failed = 0) ∧
      (st.failed ≠ 0 →
        OtterDownloader.main_exit_code
          (OtterDownloader.SeqRunOutcome.completed st) = 1)) ∧
    (∀ results : List Bool,
      (OtterParallel.run_parallel_summary results).exit_code = 0) := by
  constructor
  · intro st
    by_cases h : st.failed = 0 <;>
      simp [OtterDownloader.main_exit_code,
        OtterDownloader.run_download_success, h]
  · intro results
    rfl

/-- C10 (counterexample): a parallel run with one failed item still ends
with process exit status zero, so it is not the case that every run exits
non-zero when an item remains failed. -/
theorem c10_counterexample :
    (OtterParallel.run_parallel_summary [false]).fail_count = 1 ∧
    (OtterParallel.run_parallel_summary [false]).exit_code = 0 :=
  ⟨rfl, rfl⟩

namespace OtterDownloader

theorem splitLines_ne_nil (s : List Char) : splitLines s ≠ [] := by
  induction s with
  | nil => simp [splitLines]
  | cons c cs ih =>
    simp only [splitLines]
    split
    · simp
    · cases h : splitLines cs with
      | nil => simp
      | cons l ls => simp

theorem joinLines_splitLines (s : List Char) : joinLines (splitLines s) = s := by
  induction s with
  | nil => rfl
  | cons c cs ih =>
    simp only [splitLines]
    split
    · next h =>
      subst h
      cases h2 : splitLines cs with
      | nil => exact absurd h2 (splitLines_ne_nil cs)
      | cons l ls =>
        rw [h2] at ih
        simp only [joinLines]
        simpa using ih
    · next h =>
      cases h2 : splitLines cs with
      | nil => exact absurd h2 (splitLines_ne_nil cs)
      | cons l ls =>
        rw [h2] at ih
        cases ls with
        | nil =>
          simp only [joinLines] at ih ⊢
          rw [ih]
        | cons l2 ls2 =>
          simp only [joinLines] at ih ⊢
          rw [List.cons_append, ih]

theorem joinLines_length_cons (l : List Char) (ls : List (List Char)) :
    (joinLines ls).length ≤ (joinLines (l :: ls)).length := by
  cases ls with
  | nil => simp [joinLines]
  | cons l2 ls2 =>
    simp [joinLines]
    omega

theorem stripEnds_length_le (p : Char → Bool) (l : List Char) :
    (stripEnds p l).length ≤ l.length := by
  unfold stripEnds
  have h1 : (l.dropWhile p).length ≤ l.length :=
    (List.dropWhile_suffix p).sublist.length_le
  have h2 : (((l.dropWhile p).reverse.dropWhile p)).length ≤
      (l.dropWhile p).reverse.length :=
    (List.dropWhile_suffix p).sublist.length_le
  simp only [List.length_reverse] at h2 ⊢
  omega

theorem joinLines_filterMap_length (f : List Char → Option (List Char))
    (hf : ∀ l s, f l = some s → s.length ≤ l.length)
    (ls : List (List Char)) :
    (joinLines (ls.filterMap f)).length ≤ (joinLines ls).length := by
  induction ls with
  | nil => simp
  | cons l ls ih =>
    simp only [List.filterMap_cons]
    cases hfl : f l with
    | none =>
      exact le_trans ih (joinLines_length_cons l ls)
    | some s =>
      have hsl := hf l s hfl
      cases hls : ls.filterMap f with
      | nil =>
        have hle : s.length ≤ (joinLines (l :: ls)).length := by
          cases ls with
          | nil => simpa [joinLines] using hsl
          | cons l2 ls2 =>
            simp only [joinLines, List.length_append, List.length_cons]
            omega
        simpa [joinLines]
      | cons t ts =>
        cases ls with
        | nil => simp [List.filterMap_nil] at hls
        | cons l2 ls2 =>
          rw [hls] at ih
          simp only [joinLines, List.length_append, List.length_cons] at ih ⊢
          omega

theorem clean_transcript_length_le (c : List Char) :
    (clean_transcript c).length ≤ c.length := by
  have h := joinLines_filterMap_length
    (fun line =>
      let s := stripEnds isPySpace line
      if keepLine s then some s else none)
    (fun l s hls => by
      dsimp only at hls
      split at hls
      · cases hls; exact stripEnds_length_le isPySpace l
      · cases hls)
    (splitLines c)
  rw [clean_transcript]
  exact le_trans h (le_of_eq (by rw [joinLines_splitLines]))

theorem strategy_text_extraction_eq (p : StrategyPage) :
    strategy_text_extraction p =
      if 100 < (clean_transcript (final_combined p)).length then
        some (clean_transcript (final_combined p))
      else none := by
  rw [strategy_text_extraction]
  by_cases h1 : 100 < (final_combined p).length
  · have hne : final_combined p ≠ [] := by
      intro he
      rw [he] at h1
      simp at h1
    simp [h1, hne]
  · have hclean : ¬ 100 < (clean_transcript (final_combined p)).length :=
      fun hc => h1 (lt_of_lt_of_le hc (clean_transcript_length_le _))
    simp [h1, hclean]

end OtterDownloader

set_option maxRecDepth 8192 in
/-- C8: strategy 1 succeeds exactly when the post-processed gathered text
is longer than 100 characters, where post-processing splits into lines,
strips them, drops lines shorter than 6 characters or containing a
denylist phrase and rejoins; a page whose only container text has 99
characters fails, and one whose 101 characters all survive the filtering
succeeds. -/
theorem c8_strategy1_threshold :
    (∀ p : OtterDownloader.StrategyPage,
      (OtterDownloader.strategy_text_extraction p).isSome = true ↔
        100 < (OtterDownloader.clean_transcript
          (OtterDownloader.final_combined p)).length) ∧
    OtterDownloader.strategy_text_extraction OtterDownloader.exPage99 =
      none ∧
    OtterDownloader.strategy_text_extraction OtterDownloader.exPage101 =
      some OtterDownloader.exText101 := by
  refine ⟨?_, ?_, ?_⟩
  · intro p
    rw [OtterDownloader.strategy_text_extraction_eq]
    split
    · next h => simpa using h
    · next h => simpa using h
  · rfl
  · rfl

namespace OtterDownloader

theorem mem_collapseRuns_aux (p : Char → Bool) (r : Char) :
    ∀ (n : Nat) (l : List Char), l.length ≤ n → ∀ c ∈ collapseRuns p r l,
      c = r ∨ (c ∈ l ∧ p c = false) := by
  intro n
  induction n with
  | zero =>
    intro l hl c hc
    have hnil : l = [] := List.length_eq_zero.mp (Nat.le_zero.mp hl)
    subst hnil
    simp [collapseRuns] at hc
  | succ n ih =>
    intro l hl c hc
    cases l with
    | nil => simp [collapseRuns] at hc
    | cons a cs =>
      rw [collapseRuns] at hc
      by_cases hp : p a = true
      · rw [if_pos hp] at hc
        rcases List.mem_cons.mp hc with h1 | h2
        · exact Or.inl h1
        · have hlen : (cs.dropWhile p).length ≤ n := by
            have hd := (List.dropWhile_suffix p (l := cs)).sublist.length_le
            simp only [List.length_cons] at hl
            omega
          rcases ih (cs.dropWhile p) hlen c h2 with h3 | h4
          · exact Or.inl h3
          · exact Or.inr
              ⟨List.mem_cons_of_mem _
                ((List.dropWhile_suffix p).sublist.subset h4.1), h4.2⟩
      · rw [if_neg hp] at hc
        rcases List.mem_cons.mp hc with h1 | h2
        · subst h1
          refine Or.inr ⟨List.mem_cons_self _ _, ?_⟩
          simpa using hp
        · have hlen : cs.length ≤ n := by
            simp only [List.length_cons] at hl
            omega
          rcases ih cs hlen c h2 with h3 | h4
          · exact Or.inl h3
          · exact Or.inr ⟨List.mem_cons_of_mem _ h4.1, h4.2⟩

theorem mem_collapseRuns (p : Char → Bool) (r : Char) (l : List Char)
    (c : Char) (hc : c ∈ collapseRuns p r l) :
    c = r ∨ (c ∈ l ∧ p c = false) :=
  mem_collapseRuns_aux p r l.length l le_rfl c hc

theorem head?_collapseRuns (p : Char → Bool) (r : Char) (l : List Char) :
    (collapseRuns p r l).head? =
      l.head?.map (fun c => if p c then r else c) := by
  cases l with
  | nil => simp [collapseRuns]
  | cons a cs =>
    rw [collapseRuns]
    split
    · next h => simp [h]
    · next h => simp [h]

theorem head?_dropWhile_false (p : Char → Bool) (l : List Char) (c : Char)
    (h : (l.dropWhile p).head? = some c) : p c = false := by
  induction l with
  | nil => simp at h
  | cons a cs ih =>
    rw [List.dropWhile_cons] at h
    split at h
    · exact ih h
    · next hp =>
      simp only [List.head?_cons, Option.some.injEq] at h
      subst h
      simpa using hp

theorem chain_collapseRuns_aux (p : Char → Bool) (r : Char) :
    ∀ (n : Nat) (l : List Char), l.length ≤ n →
      (collapseRuns p r l).Chain' (fun a b => p a = false ∨ p b = false) := by
  intro n
  induction n with
  | zero =>
    intro l hl
    have hnil : l = [] := List.length_eq_zero.mp (Nat.le_zero.mp hl)
    subst hnil
    simp [collapseRuns]
  | succ n ih =>
    intro l hl
    cases l with
    | nil => simp [collapseRuns]
    | cons a cs =>
      rw [collapseRuns]
      by_cases hp : p a = true
      · rw [if_pos hp]
        rw [List.chain'_cons']
        constructor
        · intro b hb
          rw [head?_collapseRuns] at hb
          cases hh : (cs.dropWhile p).head? with
          | none => rw [hh] at hb; simp at hb
          | some d =>
            rw [hh] at hb
            have hd := head?_dropWhile_false p cs d hh
            simp only [Option.map_some', Option.mem_def,
              Option.some.injEq] at hb
            right
            rw [← hb, hd]
            simp [hd]
        · apply ih
          have hd := (List.dropWhile_suffix p (l := cs)).sublist.length_le
          simp only [List.length_cons] at hl
          omega
      · rw [if_neg hp]
        rw [List.chain'_cons']
        refine ⟨fun b _ => Or.inl (by simpa using hp), ?_⟩
        apply ih
        simp only [List.length_cons] at hl
        omega

theorem chain_collapseRuns (p : Char → Bool) (r : Char) (l : List Char) :
    (collapseRuns p r l).Chain' (fun a b => p a = false ∨ p b = false) :=
  chain_collapseRuns_aux p r l.length l le_rfl

theorem collapseRuns_eq_self_of_none (p : Char → Bool) (r : Char)
    (l : List Char) (h : ∀ c ∈ l, p c = false) :
    collapseRuns p r l = l := by
  induction l with
  | nil => rw [collapseRuns]
  | cons a cs ih =>
    rw [collapseRuns, if_neg (by simp [h a (List.mem_cons_self _ _)]),
      ih (fun c hc => h c (List.mem_cons_of_mem _ hc))]

theorem collapseRuns_eq_self_of_chain (p : Char → Bool) (r : Char)
    (hr : ∀ c, p c = true → c = r) :
    ∀ l : List Char,
      l.Chain' (fun a b => p a = false ∨ p b = false) →
      collapseRuns p r l = l := by
  intro l
  induction l with
  | nil => intro _; rw [collapseRuns]
  | cons a cs ih =>
    intro hch
    by_cases hp : p a = true
    · have ha : a = r := hr a hp
      have hdw : cs.dropWhile p = cs := by
        cases cs with
        | nil => rfl
        | cons b cs2 =>
          have hb : p b = false := by
            have hpair := (List.chain'_cons'.mp hch).1 b (by simp)
            rcases hpair with h1 | h2
            · rw [h1] at hp; cases hp
            · exact h2
          rw [List.dropWhile_cons, if_neg (by simp [hb])]
      rw [collapseRuns, if_pos hp, hdw, ih hch.tail, ha]
    · rw [collapseRuns, if_neg hp, ih hch.tail]

theorem take_isPrefixOf (n : Nat) (l : List Char) : l.take n <+: l :=
  List.take_prefix n l

theorem reverse_isPrefixOf_of_suffix (l l2 : List Char) (h : l <:+ l2) :
    l.reverse <+: l2.reverse := by
  rw [ List.reverse_prefix]
  exact h

theorem chain_of_isPrefixOf (R : Char → Char → Prop) (l l2 : List Char)
    (h : l.Chain' R) (hp : l2 <+: l) : l2.Chain' R :=
  List.Chain'.prefix h hp

theorem stripEnds_isPrefixOf_dropWhile (p : Char → Bool) (l : List Char) :
    stripEnds p l <+: l.dropWhile p := by
  unfold stripEnds
  have h : ((l.dropWhile p).reverse.dropWhile p) <:+ (l.dropWhile p).reverse :=
    List.dropWhile_suffix p
  have h2 := reverse_isPrefixOf_of_suffix _ _ h
  rwa [List.reverse_reverse] at h2

theorem mem_stripEnds (p : Char → Bool) (l : List Char) (c : Char)
    (hc : c ∈ stripEnds p l) : c ∈ l :=
  ((stripEnds_isPrefixOf_dropWhile p l).sublist.trans
    (List.dropWhile_suffix p).sublist).subset hc

theorem head?_stripEnds_false (p : Char → Bool) (l : List Char) (c : Char)
    (h : (stripEnds p l).head? = some c) : p c = false := by
  obtain ⟨t, ht⟩ := stripEnds_isPrefixOf_dropWhile p l
  have hh : (l.dropWhile p).head? = some c := by
    rw [← ht, List.head?_append, h]
    rfl
  exact head?_dropWhile_false p l c hh

theorem getLast?_stripEnds_false (p : Char → Bool) (l : List Char) (c : Char)
    (h : (stripEnds p l).getLast? = some c) : p c = false := by
  unfold stripEnds at h
  rw [List.getLast?_reverse] at h
  exact head?_dropWhile_false p _ c h

theorem dropWhile_eq_self_of_head (p : Char → Bool) (l : List Char)
    (h : ∀ c, l.head? = some c → p c = false) : l.dropWhile p = l := by
  cases l with
  | nil => rfl
  | cons a cs =>
    rw [List.dropWhile_cons, if_neg (by simp [h a rfl])]

theorem stripEnds_eq_self (p : Char → Bool) (l : List Char)
    (hh : ∀ c, l.head? = some c → p c = false)
    (hl : ∀ c, l.getLast? = some c → p c = false) :
    stripEnds p l = l := by
  unfold stripEnds
  rw [dropWhile_eq_self_of_head p l hh,
    dropWhile_eq_self_of_head p l.reverse
      (fun c hc => hl c (by rwa [List.head?_reverse] at hc)),
    List.reverse_reverse]

theorem chain_stripEnds (p q : Char → Bool) (l : List Char)
    (h : l.Chain' (fun a b => q a = false ∨ q b = false)) :
    (stripEnds p l).Chain' (fun a b => q a = false ∨ q b = false) :=
  chain_of_isPrefixOf _ _ _ (h.suffix (List.dropWhile_suffix p))
    (stripEnds_isPrefixOf_dropWhile p l)

end OtterDownloader

namespace OtterDownloader

theorem sanitize_filename_props (x : List Char) :
    (∀ c ∈ sanitize_filename x,
      reserved_chars.contains c = false ∧ isPySpace c = false) ∧
    (sanitize_filename x).length ≤ 80 ∧
    (sanitize_filename x).Chain'
      (fun a b => isUnderscore a = false ∨ isUnderscore b = false) ∧
    (∀ c, (sanitize_filename x).head? = some c → isUnderscore c = false) ∧
    (∀ c, (sanitize_filename x).getLast? = some c →
      isUnderscore c = false) := by
  unfold sanitize_filename
  refine ⟨?_, ?_, ?_, ?_, ?_⟩
  · intro c hc
    have hc3 : c ∈ List.take 80 (collapseRuns isUnderscore '_'
        (collapseRuns isPySpace '_' (removeReserved x))) :=
      mem_stripEnds _ _ _ hc
    have hc2 : c ∈ collapseRuns isUnderscore '_'
        (collapseRuns isPySpace '_' (removeReserved x)) :=
      (take_isPrefixOf 80 _).sublist.subset hc3
    rcases mem_collapseRuns isUnderscore '_' _ c hc2 with h1 | h2
    · subst h1
      exact ⟨by decide, by decide⟩
    · rcases mem_collapseRuns isPySpace '_' _ c h2.1 with h3 | h4
      · subst h3
        exact ⟨by decide, by decide⟩
      · refine ⟨?_, h4.2⟩
        have hf := List.of_mem_filter h4.1
        simpa using hf
  · calc (stripEnds isUnderscore _).length
        ≤ (List.take 80 (collapseRuns isUnderscore '_'
            (collapseRuns isPySpace '_' (removeReserved x)))).length :=
          stripEnds_length_le _ _
      _ ≤ 80 := List.length_take_le 80 _
  · exact chain_stripEnds _ _ _
      (chain_of_isPrefixOf _ _ _ (chain_collapseRuns isUnderscore '_' _)
        (take_isPrefixOf 80 _))
  · intro c hc
    exact head?_stripEnds_false _ _ _ hc
  · intro c hc
    exact getLast?_stripEnds_false _ _ _ hc

theorem map_id_of_eq (f : Char → Char) (l : List Char)
    (h : ∀ c ∈ l, f c = c) : l.map f = l := by
  induction l with
  | nil => rfl
  | cons a cs ih =>
    simp only [List.map_cons, h a (List.mem_cons_self _ _),
      ih (fun c hc => h c (List.mem_cons_of_mem _ hc))]

theorem sanitize_filename_idem (x : List Char) :
    sanitize_filename (sanitize_filename x) = sanitize_filename x := by
  obtain ⟨hmem, hlen, hch, hh, hl⟩ := sanitize_filename_props x
  have h1 : removeReserved (sanitize_filename x) = sanitize_filename x := by
    unfold removeReserved
    rw [List.filter_eq_self.mpr]
    intro c hc
    rw [(hmem c hc).1]
    rfl
  have h2 : collapseRuns isPySpace '_' (sanitize_filename x) =
      sanitize_filename x :=
    collapseRuns_eq_self_of_none _ _ _ (fun c hc => (hmem c hc).2)
  have h3 : collapseRuns isUnderscore '_' (sanitize_filename x) =
      sanitize_filename x :=
    collapseRuns_eq_self_of_chain isUnderscore '_'
      (fun c hc => by simpa [isUnderscore] using hc) _ hch
  have h4 : List.take 80 (sanitize_filename x) = sanitize_filename x :=
    List.take_of_length_le hlen
  have h5 : stripEnds isUnderscore (sanitize_filename x) =
      sanitize_filename x :=
    stripEnds_eq_self _ _ hh hl
  conv_lhs => rw [sanitize_filename, h1, h2, h3, h4, h5]

end OtterDownloader

namespace OtterParallel

theorem psanitize_filename_props (x : List Char) (n : Nat) :
    (∀ c ∈ sanitize_filename x n,
      reserved_chars_parallel.contains c = false) ∧
    (sanitize_filename x n).length ≤ n ∧
    (sanitize_filename x n).Chain'
      (fun a b => OtterDownloader.isUnderscore a = false ∨
        OtterDownloader.isUnderscore b = false) ∧
    (∀ c, (sanitize_filename x n).head? = some c →
      OtterDownloader.isUnderscore c = false) ∧
    (∀ c, (sanitize_filename x n).getLast? = some c →
      OtterDownloader.isUnderscore c = false) := by
  unfold sanitize_filename
  refine ⟨?_, ?_, ?_, ?_, ?_⟩
  · intro c hc
    have hc3 : c ∈ List.take n (OtterDownloader.collapseRuns
        OtterDownloader.isUnderscore '_'
        (x.map (fun c =>
          if reserved_chars_parallel.contains c then '_' else c))) :=
      OtterDownloader.mem_stripEnds _ _ _ hc
    have hc2 := (OtterDownloader.take_isPrefixOf n _).sublist.subset hc3
    rcases OtterDownloader.mem_collapseRuns OtterDownloader.isUnderscore '_'
        _ c hc2 with h1 | h2
    · subst h1
      decide
    · obtain ⟨a, hmem2, ha⟩ := List.mem_map.mp h2.1
      by_cases hr : reserved_chars_parallel.contains a = true
      · rw [hr] at ha
        simp at ha
        subst ha
        decide
      · simp only [Bool.not_eq_true] at hr
        rw [hr] at ha
        simp at ha
        subst ha
        exact hr
  · calc (OtterDownloader.stripEnds OtterDownloader.isUnderscore _).length
        ≤ (List.take n (OtterDownloader.collapseRuns
            OtterDownloader.isUnderscore '_'
            (x.map (fun c =>
              if reserved_chars_parallel.contains c then '_' else c)))).length :=
          OtterDownloader.stripEnds_length_le _ _
      _ ≤ n := List.length_take_le n _
  · exact OtterDownloader.chain_stripEnds _ _ _
      (OtterDownloader.chain_of_isPrefixOf _ _ _
        (OtterDownloader.chain_collapseRuns OtterDownloader.isUnderscore '_' _)
        (OtterDownloader.take_isPrefixOf n _))
  · intro c hc
    exact OtterDownloader.head?_stripEnds_false _ _ _ hc
  · intro c hc
    exact OtterDownloader.getLast?_stripEnds_false _ _ _ hc

theorem psanitize_filename_idem (x : List Char) (n : Nat) :
    sanitize_filename (sanitize_filename x n) n = sanitize_filename x n := by
  obtain ⟨hmem, hlen, hch, hh, hl⟩ := psanitize_filename_props x n
  have h1 : (sanitize_filename x n).map
      (fun c => if reserved_chars_parallel.contains c then '_' else c) =
      sanitize_filename x n :=
    OtterDownloader.map_id_of_eq _ _ (fun c hc => by rw [hmem c hc]; rfl)
  have h3 : OtterDownloader.collapseRuns OtterDownloader.isUnderscore '_'
      (sanitize_filename x n) = sanitize_filename x n :=
    OtterDownloader.collapseRuns_eq_self_of_chain OtterDownloader.isUnderscore
      '_' (fun c hc => by simpa [OtterDownloader.isUnderscore] using hc) _ hch
  have h4 : List.take n (sanitize_filename x n) = sanitize_filename x n :=
    List.take_of_length_le hlen
  have h5 : OtterDownloader.stripEnds OtterDownloader.isUnderscore
      (sanitize_filename x n) = sanitize_filename x n :=
    OtterDownloader.stripEnds_eq_self _ _ hh hl
  conv_lhs => rw [sanitize_filename, h1, h3, h4, h5]

end OtterParallel

/-- C6 (amended): the downloader sanitizer is total and deterministic and,
for every input string, its output contains no reserved filesystem
character and no whitespace at all (whitespace runs become single
underscores), has no two adjacent underscores, has length at most 80, and
has no leading or trailing underscore; it is idempotent.  The parallel
variant keeps the reserved-character, length, underscore-run, trimming
and idempotence properties for its maximum length, but performs no
whitespace collapsing, so whitespace runs survive it (see the
counterexample). -/
theorem c6_sanitizer :
    (∀ x : List Char,
      (∀ c ∈ OtterDownloader.sanitize_filename x,
        OtterDownloader.reserved_chars.contains c = false ∧
        OtterDownloader.isPySpace c = false) ∧
      (OtterDownloader.sanitize_filename x).length ≤ 80 ∧
      (OtterDownloader.sanitize_filename x).Chain'
        (fun a b => OtterDownloader.isUnderscore a = false ∨
          OtterDownloader.isUnderscore b = false) ∧
      (∀ c, (OtterDownloader.sanitize_filename x).head? = some c →
        c ≠ '_') ∧
      (∀ c, (OtterDownloader.sanitize_filename x).getLast? = some c →
        c ≠ '_') ∧
      OtterDownloader.sanitize_filename
          (OtterDownloader.sanitize_filename x) =
        OtterDownloader.sanitize_filename x) ∧
    (∀ (x : List Char) (n : Nat),
      (∀ c ∈ OtterParallel.sanitize_filename x n,
        OtterParallel.reserved_chars_parallel.contains c = false) ∧
      (OtterParallel.sanitize_filename x n).length ≤ n ∧
      (OtterParallel.sanitize_filename x n).Chain'
        (fun a b => OtterDownloader.isUnderscore a = false ∨
          OtterDownloader.isUnderscore b = false) ∧
      (∀ c, (OtterParallel.sanitize_filename x n).head? = some c →
        c ≠ '_') ∧
      (∀ c, (OtterParallel.sanitize_filename x n).getLast? = some c →
        c ≠ '_') ∧
      OtterParallel.sanitize_filename
          (OtterParallel.sanitize_filename x n) n =
        OtterParallel.sanitize_filename x n) := by
  constructor
  · intro x
    obtain ⟨hmem, hlen, hch, hh, hl⟩ :=
      OtterDownloader.sanitize_filename_props x
    refine ⟨hmem, hlen, hch, ?_, ?_,
      OtterDownloader.sanitize_filename_idem x⟩
    · intro c hc heq
      subst heq
      simpa [OtterDownloader.isUnderscore] using hh _ hc
    · intro c hc heq
      subst heq
      simpa [OtterDownloader.isUnderscore] using hl _ hc
  · intro x n
    obtain ⟨hmem, hlen, hch, hh, hl⟩ :=
      OtterParallel.psanitize_filename_props x n
    refine ⟨hmem, hlen, hch, ?_, ?_,
      OtterParallel.psanitize_filename_idem x n⟩
    · intro c hc heq
      subst heq
      simpa [OtterDownloader.isUnderscore] using hh _ hc
    · intro c hc heq
      subst heq
      simpa [OtterDownloader.isUnderscore] using hl _ hc

/-- C6 (counterexample): the parallel sanitizer leaves the two adjacent
spaces of a title untouched, so its output contains a whitespace run,
contradicting the claimed collapsing of whitespace runs into single
underscores. -/
theorem c6_counterexample :
    OtterParallel.sanitize_filename ('a' :: ' ' :: ' ' :: 'b' :: []) 100 =
      'a' :: ' ' :: ' ' :: 'b' :: [] ∧
    (' ' :: ' ' :: []) <:+:
      OtterParallel.sanitize_filename ('a' :: ' ' :: ' ' :: 'b' :: []) 100 ∧
    OtterDownloader.isPySpace ' ' = true := by
  have h : OtterParallel.sanitize_filename
      ('a' :: ' ' :: ' ' :: 'b' :: []) 100 =
      'a' :: ' ' :: ' ' :: 'b' :: [] := by
    simp [OtterParallel.sanitize_filename, OtterDownloader.collapseRuns,
      OtterDownloader.stripEnds, OtterDownloader.isUnderscore,
      OtterParallel.reserved_chars_parallel, List.dropWhile]
  refine ⟨h, ?_, rfl⟩
  rw [h]
  exact ⟨['a'], ['b'], rfl⟩

/-- C6 witness: on a concrete two-letter title the sanitizer output
starts with the letter a, and the theorem yields that this head is not an
underscore. -/
theorem c6_sanitizer_witness :
    (OtterDownloader.sanitize_filename ('a' :: 'b' :: [])).head? =
      some 'a' ∧ 'a' ≠ '_' := by
  have hx : (OtterDownloader.sanitize_filename ('a' :: 'b' :: [])).head? =
      some 'a' := by
    simp [OtterDownloader.sanitize_filename, OtterDownloader.collapseRuns,
      OtterDownloader.stripEnds, OtterDownloader.removeReserved,
      OtterDownloader.isUnderscore, OtterDownloader.isPySpace,
      OtterDownloader.reserved_chars, OtterDownloader.py_whitespace,
      List.dropWhile]
  exact ⟨hx, (c6_sanitizer.1 ('a' :: 'b' :: [])).2.2.2.1 'a' hx⟩

set_option maxRecDepth 8192 in
/-- C8 witness: the threshold equivalence applied to the concrete page
with 101 surviving characters yields success. -/
theorem c8_strategy1_threshold_witness :
    100 < (OtterDownloader.clean_transcript
      (OtterDownloader.final_combined OtterDownloader.exPage101)).length ∧
    (OtterDownloader.strategy_text_extraction
      OtterDownloader.exPage101).isSome = true :=
  ⟨by decide, (c8_strategy1_threshold.1 OtterDownloader.exPage101).mpr
    (by decide)⟩

/-- C10 witness: a completed sequential run with one failed item exits
with status one. -/
theorem c10_exit_codes_witness :
    (1 : Nat) ≠ 0 ∧
    OtterDownloader.main_exit_code
      (OtterDownloader.SeqRunOutcome.completed
        { total_meetings := 3, successful := 2, failed := 1,
          pending := 0 }) = 1 :=
  ⟨by decide,
   (c10_exit_codes.1
     { total_meetings := 3, successful := 2, failed := 1,
       pending := 0 }).2 (by decide)⟩

namespace OtterDownloader

theorem scrollAux_shape (feed : Nat → Nat) (cap : Nat) :
    ∀ (fuel nc sc : Nat), cap - sc ≤ fuel →
      (scrollAux feed cap (feedAt feed sc) nc sc).1 =
        feedAt feed (scrollAux feed cap (feedAt feed sc) nc sc).2 ∧
      sc ≤ (scrollAux feed cap (feedAt feed sc) nc sc).2 ∧
      (scrollAux feed cap (feedAt feed sc) nc sc).2 ≤ max sc cap := by
  intro fuel
  induction fuel with
  | zero =>
    intro nc sc hf
    rw [scrollAux, dif_neg (by omega)]
    exact ⟨rfl, le_rfl, by omega⟩
  | succ fuel ih =>
    intro nc sc hf
    by_cases h : nc < 15 ∧ sc < cap
    · rw [scrollAux, dif_pos h]
      have hstep : feed (sc + 1) = feedAt feed (sc + 1) := by simp [feedAt]
      rw [hstep]
      obtain ⟨h1, h2, h3⟩ := ih
        (if feedAt feed (sc + 1) = feedAt feed sc then nc + 1 else 0)
        (sc + 1) (by omega)
      exact ⟨h1, by omega, by omega⟩
    · rw [scrollAux, dif_neg h]
      exact ⟨rfl, le_rfl, by omega⟩

theorem scroll_cap_bound (feed : Nat → Nat) (cap : Nat) :
    (scroll_to_load_all feed cap).2 ≤ cap := by
  have h := (scrollAux_shape feed cap cap 0 0 (by omega)).2.2
  rw [scroll_to_load_all]
  simpa [feedAt] using h

theorem scrollAux_const (feed : Nat → Nat) (K cap : Nat)
    (hst : ∀ i, K ≤ i → feed i = feed K) :
    ∀ (d nc sc : Nat), 15 - nc ≤ d → K ≤ sc → sc ≤ cap → nc ≤ 15 →
      scrollAux feed cap (feed K) nc sc =
        (feed K, min (sc + (15 - nc)) cap) := by
  intro d
  induction d with
  | zero =>
    intro nc sc hd hKs hsc hnc
    have hnc15 : nc = 15 := by omega
    subst hnc15
    rw [scrollAux, dif_neg (by omega)]
    congr 1
    omega
  | succ d ih =>
    intro nc sc hd hKs hsc hnc
    by_cases h : nc < 15 ∧ sc < cap
    · rw [scrollAux, dif_pos h]
      have hcur : feed (sc + 1) = feed K := hst (sc + 1) (by omega)
      rw [hcur, if_pos rfl]
      rw [ih (nc + 1) (sc + 1) (by omega) (by omega) (by omega) (by omega)]
      congr 1
      omega
    · rw [scrollAux, dif_neg h]
      congr 1
      omega

theorem scrollAux_climb (feed : Nat → Nat) (K cap : Nat)
    (hgrow : ∀ i, 1 ≤ i → i < K → feed i < feed (i + 1)) :
    ∀ (d sc nc : Nat), K - sc ≤ d → 1 ≤ sc → sc < K → K ≤ cap → nc < 15 →
      scrollAux feed cap (feed sc) nc sc =
        scrollAux feed cap (feed K) 0 K := by
  intro d
  induction d with
  | zero => intro sc nc hd h1 h2 h3 h4; omega
  | succ d ih =>
    intro sc nc hd h1 h2 h3 h4
    rw [scrollAux, dif_pos ⟨h4, by omega⟩]
    have hne : feed (sc + 1) ≠ feed sc := by
      have := hgrow sc h1 h2
      omega
    rw [if_neg hne]
    by_cases hend : sc + 1 = K
    · rw [hend]
    · exact ih (sc + 1) 0 (by omega) (by omega) (by omega) h3 (by omega)

theorem scroll_result (feed : Nat → Nat) (K cap : Nat)
    (hgrow : ∀ i, 1 ≤ i → i < K → feed i < feed (i + 1))
    (hst : ∀ i, K ≤ i → feed i = feed K)
    (hK : 1 ≤ K) (hcap : K ≤ cap) :
    (scroll_to_load_all feed cap).1 = feed K ∧
    (scroll_to_load_all feed cap).2 ≤ K + 15 := by
  have main : ∀ nc, nc ≤ 1 →
      (scrollAux feed cap (feed 1) nc 1).1 = feed K ∧
      (scrollAux feed cap (feed 1) nc 1).2 ≤ K + 15 := by
    intro nc hnc
    by_cases hK1 : K = 1
    · subst hK1
      rw [scrollAux_const feed 1 cap hst 15 nc 1 (by omega) le_rfl hcap
        (by omega)]
      refine ⟨rfl, ?_⟩
      simp only
      omega
    · rw [scrollAux_climb feed K cap hgrow K 1 nc (by omega) le_rfl
        (by omega) hcap (by omega)]
      rw [scrollAux_const feed K cap hst 15 0 K (by omega) le_rfl hcap
        (by omega)]
      refine ⟨rfl, ?_⟩
      simp only
      omega
  rw [scroll_to_load_all, scrollAux,
    dif_pos (⟨by omega, by omega⟩ : (0:Nat) < 15 ∧ 0 < cap)]
  simp only [Nat.zero_add]
  exact main (if feed 1 = 0 then 0 + 1 else 0) (by split <;> omega)

theorem scroll_le_stabilized (feed : Nat → Nat) (K cap : Nat)
    (hgrow : ∀ i, 1 ≤ i → i < K → feed i < feed (i + 1))
    (hst : ∀ i, K ≤ i → feed i = feed K) :
    (scroll_to_load_all feed cap).1 ≤ feed K := by
  have hstep : ∀ d a, 1 ≤ a → a + d ≤ K → feed a ≤ feed (a + d) := by
    intro d
    induction d with
    | zero => intro a h1 h2; simp
    | succ d ih =>
      intro a h1 h2
      have hg := hgrow a h1 (by omega)
      have hi := ih (a + 1) (by omega) (by omega)
      have harith : a + 1 + d = a + (d + 1) := by omega
      rw [harith] at hi
      omega
  have hmono : ∀ m, feedAt feed m ≤ feed K := by
    intro m
    rw [feedAt]
    split
    · omega
    · next hm0 =>
      by_cases hm : K ≤ m
      · rw [hst m hm]
      · have hm1 : 1 ≤ m := by omega
        have := hstep (K - m) m hm1 (by omega)
        rwa [Nat.add_sub_cancel' (by omega : m ≤ K)] at this
  have h := (scrollAux_shape feed cap cap 0 0 (by omega)).1
  rw [scroll_to_load_all]
  have h0 : feedAt feed 0 = 0 := rfl
  calc (scrollAux feed cap 0 0 0).1
      = (scrollAux feed cap (feedAt feed 0) 0 0).1 := by rw [h0]
    _ = feedAt feed (scrollAux feed cap (feedAt feed 0) 0 0).2 := h
    _ ≤ feed K := hmono _

end OtterDownloader

/-- C9: the discovery scrolling loop performs at most the cap many
iterations for every sequence of observed counts; when the observed count
grows strictly until iteration K and stays constant afterwards, the loop
exits within K plus 15 iterations or at the cap, whichever comes first,
never returns more than the stabilized count, and returns exactly the
stabilized count whenever the cap allows reaching the stabilization
point. -/
theorem c9_scroll_stability (feed : Nat → Nat) (K cap : Nat) :
    (OtterDownloader.scroll_to_load_all feed cap).2 ≤ cap ∧
    ((∀ i, 1 ≤ i → i < K → feed i < feed (i + 1)) →
     (∀ i, K ≤ i → feed i = feed K) →
     1 ≤ K →
     (OtterDownloader.scroll_to_load_all feed cap).1 ≤ feed K ∧
     (OtterDownloader.scroll_to_load_all feed cap).2 ≤ K + 15 ∧
     (K ≤ cap →
       (OtterDownloader.scroll_to_load_all feed cap).1 = feed K)) := by
  refine ⟨OtterDownloader.scroll_cap_bound feed cap, ?_⟩
  intro hgrow hst hK
  refine ⟨OtterDownloader.scroll_le_stabilized feed K cap hgrow hst,
    ?_, ?_⟩
  · by_cases hcap : K ≤ cap
    · exact (OtterDownloader.scroll_result feed K cap hgrow hst hK hcap).2
    · have := OtterDownloader.scroll_cap_bound feed cap
      omega
  · intro hcap
    exact (OtterDownloader.scroll_result feed K cap hgrow hst hK hcap).1

/-- C9 witness: a simulated feed that grows by one item per scroll and
stabilizes at 3 items after 3 scrolls makes discovery return exactly 3
and stop within 18 iterations of a 100-iteration cap. -/
theorem c9_scroll_stability_witness :
    (OtterDownloader.scroll_to_load_all (fun i => min i 3) 100).1 =
      min 3 3 ∧
    (OtterDownloader.scroll_to_load_all (fun i => min i 3) 100).2 ≤ 18 :=
  ⟨((c9_scroll_stability (fun i => min i 3) 3 100).2
      (fun i h1 h2 => by omega) (fun i h => by omega) (by omega)).2.2
      (by omega),
   ((c9_scroll_stability (fun i => min i 3) 3 100).2
      (fun i h1 h2 => by omega) (fun i h => by omega) (by omega)).2.1⟩

/-- C5 (amended): the parallel worker skips an item already marked
downloaded; otherwise it navigates, waits, and extracts with strategy 1
(the selector pass) followed by a whole-page fallback that evaluates a
script returning the document body inner text and succeeds beyond 200
characters — not the structured-data strategy, whose page state the
worker never consults; on success it persists success together with the
file size, on failure it persists failure with the error captured, and
there is no intra-run retry.  Strategies 3 and 4 do not appear in the
worker at all. -/
theorem c5_worker_behaviour (p : OtterParallel.WPage) (meeting_id : String)
    (title url now : List Char) (st : OtterParallel.PState) :
    (OtterParallel.is_downloaded meeting_id st = true →
      OtterParallel.download_single_transcript p meeting_id title url now
          st =
        (OtterParallel.WorkerResult.skipped, st)) ∧
    (OtterParallel.is_downloaded meeting_id st = false →
      (¬(OtterParallel.extract_transcript_text p title url now ≠ [] ∧
          100 <
            (OtterParallel.extract_transcript_text p title url now).length) →
        OtterParallel.download_single_transcript p meeting_id title url now
            st =
          (OtterParallel.WorkerResult.failed "No transcript content found",
           OtterParallel.mark_failure meeting_id
             "No transcript content found" st)) ∧
      (OtterParallel.extract_transcript_text p title url now ≠ [] →
       100 < (OtterParallel.extract_transcript_text p title url now).length →
        OtterParallel.download_single_transcript p meeting_id title url now
            st =
          (OtterParallel.WorkerResult.downloaded
             (OtterParallel.extract_transcript_text p title url now).length,
           OtterParallel.mark_success meeting_id
             (String.mk
               (OtterParallel.save_filename (title.take 50) meeting_id))
             (OtterParallel.extract_transcript_text p title url now).length
             st))) ∧
    (∀ (d : Option OtterDownloader.Data) (rl : Nat),
      OtterParallel.extract_transcript_text
          { p with clientState := d, clientStateRawLen := rl } title url
          now =
        OtterParallel.extract_transcript_text p title url now) := by
  refine ⟨?_, ?_, ?_⟩
  · intro h
    unfold OtterParallel.download_single_transcript
    rw [if_pos h]
  · intro h
    constructor
    · intro hfail
      unfold OtterParallel.download_single_transcript
      rw [if_neg (by simp [h])]
      dsimp only
      rw [if_neg (by simpa using hfail)]
    · intro hne hlen
      unfold OtterParallel.download_single_transcript
      rw [if_neg (by simp [h])]
      dsimp only
      rw [if_pos (by simp [hne, hlen])]
  · intro d rl
    rfl

set_option maxRecDepth 8192 in
/-- C5 (counterexample): on a page whose selector pass and body text are
empty while the client-side state globals hold a 250-character transcript
under the transcript key, the worker fails with no content, although the
structured-data strategy the claim names as strategy 2 would have
succeeded — the claimed chain and the implemented chain differ. -/
theorem c5_counterexample :
    OtterParallel.extract_transcript_text OtterParallel.exStructuredPage
      "Weekly sync".data "https://otter.ai/u/x".data
      "2024-01-01T00:00:00".data = [] ∧
    (OtterParallel.download_single_transcript OtterParallel.exStructuredPage
        "meeting-abcdef" "Weekly sync".data "https://otter.ai/u/x".data
        "2024-01-01T00:00:00".data OtterParallel.initialPState).1 =
      OtterParallel.WorkerResult.failed "No transcript content found" ∧
    OtterParallel.spec_worker_extraction OtterParallel.exStructuredPage =
      some (List.replicate 250 'a') ∧
    100 < (List.replicate 250 'a').length := by
  refine ⟨rfl, rfl, ?_, by simp⟩
  rfl

set_option maxRecDepth 8192 in
/-- C5 witness: on a page whose first selector yields a 120-character
text, the worker reports success with the written file size. -/
theorem c5_worker_behaviour_witness :
    OtterParallel.is_downloaded "meeting-abcdef"
      OtterParallel.initialPState = false ∧
    (OtterParallel.download_single_transcript OtterParallel.exWorkerPage
        "meeting-abcdef" "T".data "u".data "now".data
        OtterParallel.initialPState).1 =
      OtterParallel.WorkerResult.downloaded
        (OtterParallel.extract_transcript_text OtterParallel.exWorkerPage
          "T".data "u".data "now".data).length := by
  refine ⟨rfl, ?_⟩
  have h := ((c5_worker_behaviour OtterParallel.exWorkerPage
      "meeting-abcdef" "T".data "u".data "now".data
      OtterParallel.initialPState).2.1 rfl).2 (by decide) (by decide)
  rw [h]
